/-
Verification of the footprint-network transform-and-load pipeline.

Shallow embedding of the core transformation code
(dags/footprint_network/utils/data_transformer_core.py), the measure loader
(dags/footprint_network/utils/data_loader.py) and the DuckDB bulk loader
(dags/footprint_network/utils/duckdb_importer.py).

DataFrames are embedded as lists of row structures.  Numeric cells are
embedded by the type PVal which models the special-value behaviour of
pandas float64 columns: NaN/null (na), plus and minus infinity, and finite
values.  Finite arithmetic is carried out exactly over the rationals;
floating-point rounding is not load-bearing for any property proved here,
while NaN/infinity propagation (which is load-bearing) is modelled faithfully
after IEEE-754 semantics as exposed by pandas.
-/
import Mathlib

/-! ## Value domain: pandas float64 cells -/

/-- A cell of a pandas numeric column: null/NaN, a finite value (exact
rational), or one of the two infinities. -/
inductive PVal where
  | na : PVal
  | num (q : ℚ) : PVal
  | pinf : PVal
  | ninf : PVal
deriving DecidableEq, Repr, Inhabited

/-- IEEE-754 style subtraction as performed by pandas on float64 columns. -/
def PVal.sub : PVal → PVal → PVal
  | na, _ => na
  | _, na => na
  | num a, num b => num (a - b)
  | num _, pinf => ninf
  | num _, ninf => pinf
  | pinf, num _ => pinf
  | pinf, ninf => pinf
  | pinf, pinf => na
  | ninf, num _ => ninf
  | ninf, pinf => ninf
  | ninf, ninf => na

/-- IEEE-754 style addition (used by pandas groupby sums). -/
def PVal.add : PVal → PVal → PVal
  | na, _ => na
  | _, na => na
  | num a, num b => num (a + b)
  | num _, pinf => pinf
  | num _, ninf => ninf
  | pinf, num _ => pinf
  | ninf, num _ => ninf
  | pinf, pinf => pinf
  | ninf, ninf => ninf
  | pinf, ninf => na
  | ninf, pinf => na

/-- IEEE-754 style multiplication. -/
def PVal.mul : PVal → PVal → PVal
  | na, _ => na
  | _, na => na
  | num a, num b => num (a * b)
  | num a, pinf => if a = 0 then na else if 0 < a then pinf else ninf
  | num a, ninf => if a = 0 then na else if 0 < a then ninf else pinf
  | pinf, num a => if a = 0 then na else if 0 < a then pinf else ninf
  | ninf, num a => if a = 0 then na else if 0 < a then ninf else pinf
  | pinf, pinf => pinf
  | ninf, ninf => pinf
  | pinf, ninf => ninf
  | ninf, pinf => ninf

/-- IEEE-754 style division: x/0 is NaN for x = 0 and a signed infinity for
finite nonzero x; anything involving NaN is NaN.  This is exactly what pandas
produces for float64 column division (no exception is ever raised). -/
def PVal.div : PVal → PVal → PVal
  | na, _ => na
  | _, na => na
  | num a, num b =>
      if b = 0 then (if a = 0 then na else if 0 < a then pinf else ninf)
      else num (a / b)
  | num _, pinf => num 0
  | num _, ninf => num 0
  | pinf, num b => if 0 ≤ b then pinf else ninf
  | ninf, num b => if 0 ≤ b then ninf else pinf
  | pinf, pinf => na
  | pinf, ninf => na
  | ninf, pinf => na
  | ninf, ninf => na

/-- IEEE-754 style comparison: any comparison involving NaN is false
(pandas Series comparison yields the boolean False on NaN cells). -/
def PVal.lt : PVal → PVal → Bool
  | na, _ => false
  | _, na => false
  | num a, num b => decide (a < b)
  | num _, pinf => true
  | num _, ninf => false
  | pinf, _ => false
  | ninf, ninf => false
  | ninf, _ => true

/-- Whether the cell is null/NaN (pandas isna). -/
def PVal.isNA : PVal → Bool
  | na => true
  | _ => false

/-- Whether the cell holds a finite numeric value. -/
def PVal.isFinite : PVal → Bool
  | num _ => true
  | _ => false

/-- pandas fillna(0): replace a null/NaN cell with zero, keep others. -/
def PVal.fillZero : PVal → PVal
  | na => num 0
  | v => v

/-- pandas groupby sum with the default skipna: null cells are dropped and the
remaining cells are added up starting from 0 (an all-null group sums to 0). -/
def pvSum (l : List PVal) : PVal :=
  (l.filter (fun v => !v.isNA)).foldl PVal.add (PVal.num 0)

/-! ## Generic helpers: drop_duplicates (keep first) and sorting -/

/-- pandas drop_duplicates over a key projection: keep the first row bearing
each key, in order.  The accumulator holds the keys already seen. -/
def dedupByGo (key : α → κ) [DecidableEq κ] (seen : List κ) : List α → List α
  | [] => []
  | x :: xs =>
      if key x ∈ seen then dedupByGo key seen xs
      else x :: dedupByGo key (key x :: seen) xs

/-- pandas drop_duplicates(subset=key), keeping the first occurrence. -/
def dedupBy (key : α → κ) [DecidableEq κ] (l : List α) : List α :=
  dedupByGo key [] l

/-- Insert into a descending-sorted list (helper for the embedding of
sort_values(ascending=False); ordering is not load-bearing, only the fact
that sorting permutes the rows). -/
def insertDesc (key : α → Int) (x : α) : List α → List α
  | [] => [x]
  | y :: ys => if key y < key x then x :: y :: ys else y :: insertDesc key x ys

/-- Sort a list descending by an integer key (models sort_values). -/
def sortDesc (key : α → Int) : List α → List α
  | [] => []
  | x :: xs => insertDesc key x (sortDesc key xs)

/-! ## Dimension cleaning (FootprintCoreTransformer.clean_countries,
clean_years, clean_record_types) -/

/-- A raw country row as produced by transform_countries (columns already
renamed to snake_case). -/
structure CountryRow where
  country_code : String
  country_name : String
  short_name : String
  iso_a2 : String
  score : String
deriving DecidableEq, Repr, Inhabited

/-- A cleaned country dimension row (region and income group added). -/
structure CleanCountryRow where
  country_code : String
  country_name : String
  short_name : String
  iso_a2 : String
  score : String
  region : String
  income_group : String
deriving DecidableEq, Repr, Inhabited

/-- REGION_MAPPING from data_transformer_core.py. -/
def regionMapping : List (String × String) :=
  [("4", "Europe"), ("5", "Europe"), ("40", "Europe"), ("203", "Europe"),
   ("233", "Europe"), ("232", "Europe"),
   ("39", "North America"), ("43", "North America"), ("142", "North America"),
   ("35", "Asia"), ("113", "Asia"), ("114", "Asia"), ("116", "Asia"),
   ("117", "Asia"), ("119", "Asia"),
   ("66", "Africa"), ("83", "Africa"), ("108", "Africa"), ("133", "Africa"),
   ("159", "Africa"), ("209", "Africa"),
   ("31", "South America"), ("48", "South America"), ("49", "South America"),
   ("63", "South America"), ("176", "South America"), ("238", "South America"),
   ("14", "Oceania"), ("166", "Oceania"), ("174", "Oceania")]

/-- INCOME_MAPPING from data_transformer_core.py. -/
def incomeMapping : List (String × String) :=
  [("14", "High Income"), ("40", "High Income"), ("119", "High Income"),
   ("232", "High Income"), ("39", "High Income"),
   ("31", "Upper Middle Income"), ("35", "Upper Middle Income"),
   ("49", "Upper Middle Income"), ("133", "Upper Middle Income"),
   ("176", "Upper Middle Income"),
   ("63", "Lower Middle Income"), ("83", "Lower Middle Income"),
   ("113", "Lower Middle Income"), ("114", "Lower Middle Income"),
   ("116", "Lower Middle Income"),
   ("66", "Low Income"), ("108", "Low Income"), ("159", "Low Income")]

/-- Region/income enrichment of a single country row: map through the static
lookups and fill missing values with the string Unknown. -/
def enrichCountry (c : CountryRow) : CleanCountryRow :=
  { country_code := c.country_code
    country_name := c.country_name
    short_name := c.short_name
    iso_a2 := c.iso_a2
    score := c.score
    region := (regionMapping.lookup c.country_code).getD "Unknown"
    income_group := (incomeMapping.lookup c.country_code).getD "Unknown" }

/-- clean_countries: drop duplicate country codes (keep first), then add the
region and income-group columns with Unknown as fallback.  (The
astype-category conversions and the transformed_at timestamp column do not
change row data and are not modelled.) -/
def cleanCountries (raw : List CountryRow) : List CleanCountryRow :=
  (dedupBy (fun c => c.country_code) raw).map enrichCountry

/-- A raw year row as produced by transform_years. -/
structure YearRow where
  year : Int
deriving DecidableEq, Repr, Inhabited

/-- A cleaned year dimension row. -/
structure CleanYearRow where
  year : Int
  decade : Int
  start_date : String
  end_date : String
deriving DecidableEq, Repr, Inhabited

/-- Decade/date enrichment of a single year row; Python floor division is
Int.fdiv. -/
def enrichYear (y : YearRow) : CleanYearRow :=
  { year := y.year
    decade := (Int.fdiv y.year 10) * 10
    start_date := toString y.year ++ "-01-01"
    end_date := toString y.year ++ "-12-31" }

/-- clean_years: drop duplicate years (keep first), sort descending by year,
add decade and calendar-boundary columns. -/
def cleanYears (raw : List YearRow) : List CleanYearRow :=
  (sortDesc (fun y => y.year) (dedupBy (fun y => y.year) raw)).map enrichYear

/-- A raw record-type row as produced by transform_record_types. -/
structure RecordTypeRow where
  code : String
  name : String
  note : String
  record : String
deriving DecidableEq, Repr, Inhabited

/-- A cleaned record-type dimension row (category column added). -/
structure CleanRecordTypeRow where
  code : String
  name : String
  note : String
  record : String
  category : String
deriving DecidableEq, Repr, Inhabited

/-- category_mapping from clean_record_types. -/
def categoryMapping : List (String × String) :=
  [("BCpc", "Biocapacity"), ("BC", "Biocapacity"),
   ("EFCpc", "Ecological Footprint"), ("EFC", "Ecological Footprint"),
   ("pop", "Population"), ("Land", "Land Use"), ("gdp", "Economic")]

/-- Category derivation for one record-type row: take the first four
characters of the code (str[:4]), look that exact string up in the category
table, default to Other. -/
def enrichRecordType (r : RecordTypeRow) : CleanRecordTypeRow :=
  { code := r.code
    name := r.name
    note := r.note
    record := r.record
    category := (categoryMapping.lookup (r.code.take 4)).getD "Other" }

/-- clean_record_types: drop duplicate record-family names (keep first), then
derive the category column. -/
def cleanRecordTypes (raw : List RecordTypeRow) : List CleanRecordTypeRow :=
  (dedupBy (fun r => r.record) raw).map enrichRecordType

/-! ## Fact normalization (FootprintCoreTransformer.clean_ecological_measures) -/

/-- A measures fact row as produced by transform_ecological_measures
(columns renamed to snake_case; numeric cells may be null). -/
structure MeasureRow where
  country_code : String
  year : Int
  record : String
  crop_land : PVal
  grazing_land : PVal
  forest_land : PVal
  fishing_ground : PVal
  builtup_land : PVal
  carbon : PVal
  value : PVal
  score : PVal
deriving DecidableEq, Repr, Inhabited

/-- The deduplication key of the fact table: (year, country_code, record). -/
def measureKey (m : MeasureRow) : Int × String × String :=
  (m.year, m.country_code, m.record)

/-- fillna(0) over the six component columns and the scalar value; the score
column passes through unchanged. -/
def fillComponents (m : MeasureRow) : MeasureRow :=
  { m with
    crop_land := m.crop_land.fillZero
    grazing_land := m.grazing_land.fillZero
    forest_land := m.forest_land.fillZero
    fishing_ground := m.fishing_ground.fillZero
    builtup_land := m.builtup_land.fillZero
    carbon := m.carbon.fillZero
    value := m.value.fillZero }

/-- clean_ecological_measures: drop duplicate (year, country_code, record)
rows keeping the first occurrence, then replace nulls in the six component
columns and the value column with zero. -/
def cleanEcologicalMeasures (raw : List MeasureRow) : List MeasureRow :=
  (dedupBy measureKey raw).map fillComponents

/-- The seven numeric columns filled by clean_ecological_measures (as field
projections of a fact row). -/
def numericFields : List (MeasureRow → PVal) :=
  [fun m => m.crop_land, fun m => m.grazing_land, fun m => m.forest_land,
   fun m => m.fishing_ground, fun m => m.builtup_land, fun m => m.carbon,
   fun m => m.value]

/-! ## Measure loading (FootprintDataLoader._load_measures_batch) -/

/-- A raw JSON measure record as consumed by _load_measures_batch: every
field is optional. -/
structure RawMeasure where
  countryCode : Option String
  year : Option Int
  record : Option String
  cropLand : Option ℚ
  grazingLand : Option ℚ
  forestLand : Option ℚ
  fishingGround : Option ℚ
  builtupLand : Option ℚ
  carbon : Option ℚ
  value : Option ℚ
  score : Option String
deriving DecidableEq, Repr, Inhabited

/-- A measure row as inserted into the ecological_measures table. -/
structure LoadedMeasure where
  country_code : String
  year : Int
  record : String
  code : String
  crop_land : Option ℚ
  grazing_land : Option ℚ
  forest_land : Option ℚ
  fishing_ground : Option ℚ
  builtup_land : Option ℚ
  carbon : Option ℚ
  value : Option ℚ
  score : Option String
deriving DecidableEq, Repr, Inhabited

/-- The fallback record-name-to-code mapping hardcoded in
_load_measures_batch. -/
def fallbackRecordMapping : List (String × String) :=
  [("BiocapPerCap", "bcpc"), ("BiocapTotGHA", "bctot"),
   ("EFConsPerCap", "efcpc"), ("EFConsTotGHA", "efctot"),
   ("EFProdPerCap", "efppc"), ("EFProdTotGHA", "efptot"),
   ("EFImportsPerCap", "efipc"), ("EFImportsTotGHA", "efitot"),
   ("EFExportsPerCap", "efepc"), ("EFExportsTotGHA", "efetot"),
   ("AreaPerCap", "apc"), ("AreaTotHA", "atot"),
   ("Population", "pop"), ("Earths", "earth"),
   ("GDP-PPP", "gdpp"), ("GDP-USD", "gdpus"), ("GDP", "gdp"), ("HDI", "hdi")]

/-- Conversion of one raw measure: the record is skipped (none) when
countryCode, year or record is missing, or when the record name has no entry
in the record-code mapping; otherwise all value fields pass through. -/
def convMeasure (mapping : List (String × String)) (m : RawMeasure) :
    Option LoadedMeasure := do
  let cc ← m.countryCode
  let y ← m.year
  let r ← m.record
  let code ← mapping.lookup r
  pure { country_code := cc, year := y, record := r, code := code
         crop_land := m.cropLand, grazing_land := m.grazingLand
         forest_land := m.forestLand, fishing_ground := m.fishingGround
         builtup_land := m.builtupLand, carbon := m.carbon
         value := m.value, score := m.score }

/-- _load_measures_batch: each raw measure is inserted unless its conversion
is skipped; skipped records are logged and the rest of the batch proceeds. -/
def loadMeasuresBatch (mapping : List (String × String))
    (measures : List RawMeasure) : List LoadedMeasure :=
  measures.filterMap (convMeasure mapping)

/-! ## Ecological balance (calculate_ecological_indicators) -/

/-- One row of the (country_code, year) keyed value subsets selected for the
balance merge. -/
structure KV where
  cc : String
  yr : Int
  v : PVal
deriving DecidableEq, Repr, Inhabited

/-- The outer-merged pair of biocapacity and footprint values before the
derived columns are added. -/
structure BalanceKeyed where
  cc : String
  yr : Int
  bio : PVal
  fp : PVal
deriving DecidableEq, Repr, Inhabited

/-- The contribution of one left (biocapacity) row to the outer merge: one
merged row per matching right row, or a single row with null footprint when
no right row matches its key. -/
def mergeLeft (fp : List KV) (b : KV) : List BalanceKeyed :=
  let ms := fp.filter (fun f => decide (f.cc = b.cc) && decide (f.yr = b.yr))
  if ms.isEmpty then [⟨b.cc, b.yr, b.v, PVal.na⟩]
  else ms.map (fun f => ⟨b.cc, b.yr, b.v, f.v⟩)

/-- pd.merge(biocap_df, footprint_df, on=[country_code, year], how=outer):
every left row paired with each matching right row (null footprint when
unmatched), followed by the unmatched right rows (null biocapacity). -/
def mergeOuterBalance (bio fp : List KV) : List BalanceKeyed :=
  bio.flatMap (mergeLeft fp)
  ++ ((fp.filter (fun f =>
        !(bio.any (fun b => decide (f.cc = b.cc) && decide (f.yr = b.yr))))).map
      (fun f => ⟨f.cc, f.yr, PVal.na, f.v⟩))

/-- A row of the ecological-balance indicator table. -/
structure BalanceRow where
  country_code : String
  year : Int
  biocapacity : PVal
  footprint : PVal
  ecological_balance : PVal
  ecological_ratio : PVal
  is_deficit : Bool
  country_name : Option String
  region : Option String
  income_group : Option String
deriving DecidableEq, Repr, Inhabited

/-- Derived-column computation plus the left join onto the country dimension
(unmatched country codes keep null name/region/income; each matching country
row produces one output row, as pd.merge does). -/
def enrichBalance (countries : List CleanCountryRow) (k : BalanceKeyed) :
    List BalanceRow :=
  let bal := k.bio.sub k.fp
  let ratio := k.bio.div k.fp
  let defi := bal.lt (PVal.num 0)
  let cs := countries.filter (fun c => decide (c.country_code = k.cc))
  if cs.isEmpty then
    [⟨k.cc, k.yr, k.bio, k.fp, bal, ratio, defi, none, none, none⟩]
  else cs.map (fun c =>
    ⟨k.cc, k.yr, k.bio, k.fp, bal, ratio, defi,
     some c.country_name, some c.region, some c.income_group⟩)

/-- The biocapacity subset of the measures, keyed for the balance merge. -/
def bioSubset (measures : List MeasureRow) : List KV :=
  (measures.filter (fun m => decide (m.record = "BiocapPerCap"))).map
    (fun m => KV.mk m.country_code m.year m.value)

/-- The consumption-footprint subset of the measures, keyed for the balance
merge. -/
def fpSubset (measures : List MeasureRow) : List KV :=
  (measures.filter (fun m => decide (m.record = "EFConsPerCap"))).map
    (fun m => KV.mk m.country_code m.year m.value)

/-- calculate_ecological_indicators: guard on empty inputs, filter the
BiocapPerCap and EFConsPerCap subsets, guard on either subset being empty,
outer-merge on (country_code, year), compute balance, ratio and deficit flag,
and left-join the country dimension. -/
def calculateEcologicalIndicators (measures : List MeasureRow)
    (countries : List CleanCountryRow) : List BalanceRow :=
  if measures.isEmpty || countries.isEmpty then [] else
  if (bioSubset measures).isEmpty || (fpSubset measures).isEmpty then []
  else (mergeOuterBalance (bioSubset measures)
    (fpSubset measures)).flatMap (enrichBalance countries)

/-! ## Footprint composition (calculate_footprint_composition) -/

/-- A row of the footprint-composition indicator table: the source row plus
the six percentage columns and the carbon-dependency ratio. -/
structure CompositionRow where
  src : MeasureRow
  crop_land_pct : PVal
  grazing_land_pct : PVal
  forest_land_pct : PVal
  fishing_ground_pct : PVal
  builtup_land_pct : PVal
  carbon_pct : PVal
  carbon_dependency : PVal
deriving DecidableEq, Repr, Inhabited

/-- Percentage of one component relative to the total value. -/
def pctOf (component total : PVal) : PVal :=
  (component.div total).mul (PVal.num 100)

/-- calculate_footprint_composition: guard on empty input, keep only the
EFConsPerCap rows, and add a component/value*100 percentage column per
component plus the carbon-dependency ratio.  (All component columns always
exist in this embedding, matching the explicit column-backfill in the
code.) -/
def calculateFootprintComposition (measures : List MeasureRow) :
    List CompositionRow :=
  if measures.isEmpty then [] else
  (measures.filter (fun m => decide (m.record = "EFConsPerCap"))).map
    (fun m =>
      ⟨m, pctOf m.crop_land m.value, pctOf m.grazing_land m.value,
       pctOf m.forest_land m.value, pctOf m.fishing_ground m.value,
       pctOf m.builtup_land m.value, pctOf m.carbon m.value,
       pctOf m.carbon m.value⟩)

/-! ## Geographical aggregations (create_geographical_aggregations) -/

/-- The four canonical record families kept by the aggregation engine. -/
def commonRecords : List String :=
  ["BiocapPerCap", "EFConsPerCap", "Population", "GDP"]

/-- A measures row after the left join onto the country dimension: region and
income group are null when the country code has no match.  (Only the columns
the aggregations read - the keys and the value - are carried; the remaining
pass-through measure columns play no role in any aggregation.) -/
structure GeoRow where
  country_code : String
  year : Int
  record : String
  value : PVal
  region : Option String
  income_group : Option String
deriving DecidableEq, Repr, Inhabited

/-- pd.merge(measures, countries[...], on=country_code, how=left) for one
measure row: one output row per matching country row, or a single row with
null region/income when there is no match. -/
def joinCountry (countries : List CleanCountryRow) (m : MeasureRow) :
    List GeoRow :=
  let cs := countries.filter (fun c => decide (c.country_code = m.country_code))
  if cs.isEmpty then
    [⟨m.country_code, m.year, m.record, m.value, none, none⟩]
  else cs.map (fun c =>
    ⟨m.country_code, m.year, m.record, m.value, some c.region,
     some c.income_group⟩)

/-- geo_data: measures left-joined to countries, then filtered to the four
canonical record families. -/
def makeGeoData (measures : List MeasureRow)
    (countries : List CleanCountryRow) : List GeoRow :=
  (measures.flatMap (joinCountry countries)).filter
    (fun g => decide (g.record ∈ commonRecords))

/-- One row of the weighted_metrics join: a non-Population canonical measure
row inner-joined to the per-(country, year) population lookup. -/
structure WRow where
  country_code : String
  year : Int
  record : String
  region : Option String
  value : PVal
  population : PVal
  weighted_value : PVal
deriving DecidableEq, Repr, Inhabited

/-- weighted_metrics: inner join of the non-Population canonical rows with
the population lookup (rows for country-years lacking a population figure
drop out of the join), with weighted_value = value * population. -/
def weightedMetrics (measures : List MeasureRow)
    (countries : List CleanCountryRow) : List WRow :=
  let geo := makeGeoData measures countries
  let popLook := (geo.filter (fun g => decide (g.record = "Population"))).map
    (fun g => (g.country_code, g.year, g.value))
  (geo.filter (fun g => decide (g.record ≠ "Population"))).flatMap (fun g =>
    (popLook.filter (fun p =>
      decide (p.1 = g.country_code) && decide (p.2.1 = g.year))).map (fun p =>
        ⟨g.country_code, g.year, g.record, g.region, g.value, p.2.2,
         g.value.mul p.2.2⟩))

/-- One row of the population-weighted regional aggregation. -/
structure AggRow where
  region : String
  year : Int
  record : String
  weighted_value : PVal
  population : PVal
  population_weighted_avg : PVal
deriving DecidableEq, Repr, Inhabited

/-- The members of one (region, year, record) group of the weighted join.
pandas groupby drops rows whose region key is null. -/
def weightedGroup (wm : List WRow) (region : String) (year : Int)
    (record : String) : List WRow :=
  wm.filter (fun w =>
    decide (w.region = some region) && decide (w.year = year) &&
    decide (w.record = record))

/-- groupby([region, year, record]).agg(sum) over the weighted join followed
by the division producing population_weighted_avg.  Group keys are the
observed non-null key triples (one output row each). -/
def weightedRegionAgg (wm : List WRow) : List AggRow :=
  let keys := dedupBy id (wm.filterMap (fun w =>
    w.region.map (fun r => (r, w.year, w.record))))
  keys.map (fun k =>
    let grp := weightedGroup wm k.1 k.2.1 k.2.2
    let sw := pvSum (grp.map (fun w => w.weighted_value))
    let sp := pvSum (grp.map (fun w => w.population))
    ⟨k.1, k.2.1, k.2.2, sw, sp, sw.div sp⟩)

/-- The population-weighted rollup produced by
create_geographical_aggregations: empty when the inputs are empty or when no
Population record exists in the (joined, canonical-filtered) data. -/
def weightedAggs (measures : List MeasureRow)
    (countries : List CleanCountryRow) : List AggRow :=
  if measures.isEmpty || countries.isEmpty then [] else
  if ((makeGeoData measures countries).filter
      (fun g => decide (g.record = "Population"))).isEmpty then []
  else weightedRegionAgg (weightedMetrics measures countries)

/-- The logical snapshot names create_geographical_aggregations saves: the
region and income rollups always (when the inputs are nonempty), the
population-weighted rollup only when it is nonempty. -/
def publishedAggNames (measures : List MeasureRow)
    (countries : List CleanCountryRow) : List String :=
  if measures.isEmpty || countries.isEmpty then [] else
  ["agg_by_region", "agg_by_income"] ++
    (if (weightedAggs measures countries).isEmpty then []
     else ["agg_population_weighted"])

/-! ## DuckDB bulk loader (DuckDBParquetImporter) -/

/-- Whether the first list is an initial segment of the second. -/
def leadsWith : List Char → List Char → Bool
  | [], _ => true
  | _ :: _, [] => false
  | p :: ps, c :: cs => decide (p = c) && leadsWith ps cs

/-- Snapshot filename stem extraction: everything strictly before the first
occurrence of the character pattern, mirroring Python split()[0]. -/
def splitHead (pat : List Char) : List Char → List Char
  | [] => []
  | c :: cs =>
      if leadsWith pat (c :: cs) then []
      else c :: splitHead pat cs

/-- Whether the pattern occurs as a contiguous subsequence. -/
def hasSeq (pat : List Char) : List Char → Bool
  | [] => pat.isEmpty
  | c :: cs => leadsWith pat (c :: cs) || hasSeq pat cs

/-- The split pattern used by batch_import_directory: the code comment says
the split assumes timestamps start with 20. -/
def tsPat : List Char := ['_', '2', '0']

/-- file_name.split with the timestamp pattern, first piece: the logical
name stem of a snapshot file. -/
def extractStem (fileName : String) : String :=
  String.mk (splitHead tsPat fileName.toList)

/-- Target table name: the stem mapped through table_mapping, the stem
itself when unmapped. -/
def tableNameFor (mapping : List (String × String)) (fileName : String) :
    String :=
  let p := extractStem fileName
  (mapping.lookup p).getD p

/-- The analytical store: an association of table names to loaded tables
(row contents abstracted). -/
abbrev Table := List Int

/-- The store state: list of (table name, table). -/
abbrev Store := List (String × Table)

/-- DROP TABLE IF EXISTS. -/
def dropTable (s : Store) (n : String) : Store :=
  s.filter (fun p => decide (p.1 ≠ n))

/-- A snapshot file: its name and its readable content (none when reading
the file raises, which is how a forced single-table import failure enters
the batch). -/
structure SnapFile where
  name : String
  content : Option Table
deriving DecidableEq, Repr, Inhabited

/-- import_parquet in replace mode: DROP TABLE IF EXISTS always executes,
then CREATE TABLE AS SELECT either loads the rows (returning the resulting
row count) or raises.  The returned store reflects the statements that
executed before any failure. -/
def importParquet (s : Store) (tbl : String) (content : Option Table) :
    Store × Option Nat :=
  match content with
  | some rows => (dropTable s tbl ++ [(tbl, rows)], some rows.length)
  | none => (dropTable s tbl, none)

/-- Per-table entry of the result map of a batch import. -/
structure ImpResult where
  file : String
  rows : Nat
  success : Bool
deriving DecidableEq, Repr, Inhabited

/-- Python dict semantics for the result map: the last binding of a key
wins. -/
def dictLookup : List (String × α) → String → Option α
  | [], _ => none
  | (k, v) :: rest, key =>
      match dictLookup rest key with
      | some r => some r
      | none => if k = key then some v else none

/-- The loop of batch_import_directory.  saved is the store at BEGIN
TRANSACTION; on a failed import under transaction=true the batch rolls back
to saved and returns the results accumulated so far (error entry included);
otherwise the loop continues and a final COMMIT keeps the current store. -/
def batchGo (mapping : List (String × String)) (txn : Bool) (saved : Store) :
    Store → List (String × ImpResult) → List SnapFile →
    Store × List (String × ImpResult)
  | s, acc, [] => (s, acc)
  | s, acc, f :: rest =>
      let tbl := tableNameFor mapping f.name
      match importParquet s tbl f.content with
      | (s2, some n) =>
          batchGo mapping txn saved s2 (acc ++ [(tbl, ⟨f.name, n, true⟩)]) rest
      | (s2, none) =>
          if txn then (saved, acc ++ [(tbl, ⟨f.name, 0, false⟩)])
          else batchGo mapping txn saved s2
            (acc ++ [(tbl, ⟨f.name, 0, false⟩)]) rest

/-- batch_import_directory over an already-discovered file list: wraps
the import loop in a transaction when requested (the initial store doubles
as the BEGIN snapshot). -/
def batchImportDirectory (s : Store) (files : List SnapFile)
    (mapping : List (String × String)) (txn : Bool) :
    Store × List (String × ImpResult) :=
  batchGo mapping txn s s [] files

/-! ## Concrete inputs for witnesses and counterexamples -/

/-- The spec example biocapacity measure for country 2, year 2020. -/
def exBio : MeasureRow :=
  ⟨"2", 2020, "BiocapPerCap", .na, .na, .na, .na, .na, .na, .num (1/2), .na⟩

/-- The spec example footprint measure for country 2, year 2020. -/
def exFp : MeasureRow :=
  ⟨"2", 2020, "EFConsPerCap", .na, .na, .na, .na, .na, .na, .num (3/2), .na⟩

/-- A footprint measure for a different country-year (used to keep the
footprint subset nonempty while leaving country 2 one-sided). -/
def exFpOther : MeasureRow :=
  ⟨"3", 2019, "EFConsPerCap", .na, .na, .na, .na, .na, .na, .num 2, .na⟩

/-- The spec example country row, cleaned. -/
def exCountry : CleanCountryRow :=
  ⟨"2", "Afghanistan", "Afghanistan", "AF", "3A", "Unknown", "Unknown"⟩

/-- A footprint row whose total value is zero while its carbon component is
nonzero (division-by-zero case for the composition percentages). -/
def exZeroTotal : MeasureRow :=
  ⟨"1", 2020, "EFConsPerCap", .na, .na, .na, .na, .na, .num 1, .num 0, .na⟩

/-- A raw measure with all three key fields present but a record name absent
from the record-code mapping. -/
def exRawUnmapped : RawMeasure :=
  ⟨some "1", some 2020, some "NotARecord", none, none, none, none, none,
   none, some 1, none⟩

/-- A record type whose code EFCpc has its own entry in the category table,
yet whose four-character slice EFCp is not a key. -/
def exRtEFCpc : RecordTypeRow := ⟨"EFCpc", "EF cons per cap", "", "EFConsPerCap"⟩

/-- A record type whose four-character slice BCpc is a category-table key. -/
def exRtBCpc : RecordTypeRow := ⟨"BCpc", "Biocap per cap", "", "BiocapPerCap"⟩

/-- Population measures for the two example countries of the weighted
aggregation scenario. -/
def exPopA : MeasureRow :=
  ⟨"A", 2020, "Population", .na, .na, .na, .na, .na, .na, .num 10, .na⟩

/-- Population of example country B. -/
def exPopB : MeasureRow :=
  ⟨"B", 2020, "Population", .na, .na, .na, .na, .na, .na, .num 20, .na⟩

/-- Example measure of country A with value 5. -/
def exValA : MeasureRow :=
  ⟨"A", 2020, "EFConsPerCap", .na, .na, .na, .na, .na, .na, .num 5, .na⟩

/-- Example measure of country B with value 8. -/
def exValB : MeasureRow :=
  ⟨"B", 2020, "EFConsPerCap", .na, .na, .na, .na, .na, .na, .num 8, .na⟩

/-- A measure from a non-canonical record family with a matching population
row. -/
def exAreaA : MeasureRow :=
  ⟨"A", 2020, "AreaPerCap", .na, .na, .na, .na, .na, .na, .num 5, .na⟩

/-- Example country A, in region R1. -/
def exCtryA : CleanCountryRow := ⟨"A", "CtryA", "A", "AA", "3A", "R1", "High Income"⟩

/-- Example country B, in the same region R1. -/
def exCtryB : CleanCountryRow := ⟨"B", "CtryB", "B", "BB", "3A", "R1", "High Income"⟩

/-- A snapshot file that imports successfully. -/
def exSnapA : SnapFile := ⟨"a_20250101_000000.parquet", some [1, 2]⟩

/-- A snapshot file whose import fails (unreadable content). -/
def exSnapB : SnapFile := ⟨"b_20250101_000000.parquet", none⟩

/-- The initial store for the batch-import witness. -/
def exStore : Store := [("old", [7])]

/-- The name mapping for the batch-import witness. -/
def exMapping : List (String × String) := [("a", "ta")]

/-! ## Lemmas: drop_duplicates keeps the first occurrence per key -/

theorem dedupByGo_filter (key : α → κ) [DecidableEq κ] (k : κ) :
    ∀ (l : List α) (seen : List κ),
    (dedupByGo key seen l).filter (fun x => decide (key x = k))
      = if k ∈ seen then [] else (l.find? (fun x => decide (key x = k))).toList := by
  intro l
  induction l with
  | nil => intro seen; simp [dedupByGo]
  | cons x xs ih =>
    intro seen
    by_cases hx : key x ∈ seen
    · rw [dedupByGo, if_pos hx, ih]
      by_cases hk : k ∈ seen
      · simp [hk]
      · have hxk : ¬(decide (key x = k) = true) := by
          simp only [decide_eq_true_eq]
          exact fun h => hk (h ▸ hx)
        rw [if_neg hk, if_neg hk,
          List.find?_cons_of_neg (p := fun z => decide (key z = k)) xs hxk]
    · rw [dedupByGo, if_neg hx, List.filter_cons]
      by_cases hxk : key x = k
      · have hk : k ∉ seen := fun h => hx (hxk ▸ h)
        have hmem : k ∈ key x :: seen := by simp [hxk]
        rw [if_pos (by simpa using hxk), ih, if_pos hmem, if_neg hk,
          List.find?_cons_of_pos (p := fun z => decide (key z = k)) xs
            (by simpa using hxk)]
        rfl
      · have hmem : (k ∈ key x :: seen) ↔ (k ∈ seen) := by
          simp [List.mem_cons]
          exact fun h => absurd h.symm hxk
        rw [if_neg (by simpa using hxk), ih]
        by_cases hk : k ∈ seen
        · rw [if_pos (hmem.mpr hk), if_pos hk]
        · rw [if_neg (fun h => hk (hmem.mp h)), if_neg hk,
            List.find?_cons_of_neg (p := fun z => decide (key z = k)) xs
              (by simpa using hxk)]

theorem dedupBy_filter (key : α → κ) [DecidableEq κ] (k : κ) (l : List α) :
    (dedupBy key l).filter (fun x => decide (key x = k))
      = (l.find? (fun x => decide (key x = k))).toList := by
  simpa [dedupBy] using dedupByGo_filter key k l []

theorem dedupByGo_nodup (key : α → κ) [DecidableEq κ] :
    ∀ (l : List α) (seen : List κ),
    ((dedupByGo key seen l).map key).Nodup
      ∧ ∀ b ∈ (dedupByGo key seen l).map key, b ∉ seen := by
  intro l
  induction l with
  | nil => intro seen; simp [dedupByGo]
  | cons x xs ih =>
    intro seen
    by_cases hx : key x ∈ seen
    · rw [dedupByGo, if_pos hx]; exact ih seen
    · rw [dedupByGo, if_neg hx]
      obtain ⟨hnd, hni⟩ := ih (key x :: seen)
      refine ⟨List.Nodup.cons ?_ hnd, ?_⟩
      · intro hmem
        exact (hni _ hmem) (by simp)
      · intro b hb
        rcases List.mem_cons.mp hb with h | h
        · exact h ▸ hx
        · exact fun hs => (hni b h) (List.mem_cons_of_mem _ hs)

theorem dedupBy_nodup (key : α → κ) [DecidableEq κ] (l : List α) :
    ((dedupBy key l).map key).Nodup :=
  (dedupByGo_nodup key l []).1

theorem key_mem_dedupBy (key : α → κ) [DecidableEq κ] (l : List α) (x : α)
    (hx : x ∈ l) : ∃ y ∈ dedupBy key l, key y = key x := by
  have hsome : (l.find? (fun z => decide (key z = key x))).isSome := by
    rw [List.find?_isSome]
    exact ⟨x, hx, by simp⟩
  obtain ⟨y, hy⟩ := Option.isSome_iff_exists.mp hsome
  have hfy : y ∈ (dedupBy key l).filter (fun z => decide (key z = key x)) := by
    rw [dedupBy_filter, hy]; simp
  obtain ⟨hmem, hk⟩ := List.mem_filter.mp hfy
  exact ⟨y, hmem, by simpa using hk⟩

/-! ## Lemmas: sorting permutes -/

theorem insertDesc_perm (key : α → Int) (x : α) (l : List α) :
    (insertDesc key x l).Perm (x :: l) := by
  induction l with
  | nil => rfl
  | cons y ys ih =>
    rw [insertDesc]
    by_cases h : key y < key x
    · rw [if_pos h]
    · rw [if_neg h]
      exact (ih.cons y).trans (List.Perm.swap x y ys)

theorem sortDesc_perm (key : α → Int) (l : List α) :
    (sortDesc key l).Perm l := by
  induction l with
  | nil => rfl
  | cons x xs ih =>
    rw [sortDesc]
    exact (insertDesc_perm key x (sortDesc key xs)).trans (ih.cons x)

/-! ## Lemmas: cleaned dimension = enriched first occurrences -/

theorem filter_map_dedup (key : α → κ) [DecidableEq κ] (f : α → β)
    (pk : β → κ) (hf : ∀ a, pk (f a) = key a) (l : List α) (k : κ) :
    ((dedupBy key l).map f).filter (fun b => decide (pk b = k))
      = ((l.find? (fun a => decide (key a = k))).map f).toList := by
  rw [List.filter_map]
  have hcomp : ((fun b => decide (pk b = k)) ∘ f)
      = fun a => decide (key a = k) := by
    funext a; simp [hf a]
  rw [hcomp, dedupBy_filter]
  cases l.find? (fun a => decide (key a = k)) <;> rfl

theorem map_pk_map_dedup (key : α → κ) [DecidableEq κ] (f : α → β)
    (pk : β → κ) (hf : ∀ a, pk (f a) = key a) (l : List α) :
    ((dedupBy key l).map f).map pk = (dedupBy key l).map key := by
  rw [List.map_map]
  congr 1
  funext a
  exact hf a

theorem filter_map_sort_dedup (key : α → κ) [DecidableEq κ] (ikey : α → Int)
    (f : α → β) (pk : β → κ) (hf : ∀ a, pk (f a) = key a) (l : List α)
    (k : κ) :
    ((sortDesc ikey (dedupBy key l)).map f).filter (fun b => decide (pk b = k))
      = ((l.find? (fun a => decide (key a = k))).map f).toList := by
  rw [List.filter_map]
  have hcomp : ((fun b => decide (pk b = k)) ∘ f)
      = fun a => decide (key a = k) := by
    funext a; simp [hf a]
  rw [hcomp]
  have hperm := (sortDesc_perm ikey (dedupBy key l)).filter
    (fun a => decide (key a = k))
  rw [dedupBy_filter] at hperm
  cases hfind : l.find? (fun a => decide (key a = k)) with
  | none =>
      rw [hfind] at hperm
      rw [List.perm_nil.mp hperm]
      rfl
  | some a =>
      rw [hfind] at hperm
      rw [List.perm_singleton.mp hperm]
      rfl

/-- C3: after dimension cleaning, every dimension table's primary-key column
is duplicate-free, and for each key the unique surviving row is the
enrichment of the first raw row bearing that key (duplicates beyond the
first occurrence are dropped): country_code for countries, year for years,
and the record-family name for record types. -/
theorem c3_dimension_keys_unique (cs : List CountryRow) (ys : List YearRow)
    (rs : List RecordTypeRow) :
    ((cleanCountries cs).map (fun r => r.country_code)).Nodup
    ∧ (∀ k, (cleanCountries cs).filter (fun r => decide (r.country_code = k))
        = ((cs.find? (fun c => decide (c.country_code = k))).map
            enrichCountry).toList)
    ∧ ((cleanYears ys).map (fun r => r.year)).Nodup
    ∧ (∀ k, (cleanYears ys).filter (fun r => decide (r.year = k))
        = ((ys.find? (fun y => decide (y.year = k))).map enrichYear).toList)
    ∧ ((cleanRecordTypes rs).map (fun r => r.record)).Nodup
    ∧ (∀ k, (cleanRecordTypes rs).filter (fun r => decide (r.record = k))
        = ((rs.find? (fun t => decide (t.record = k))).map
            enrichRecordType).toList) := by
  refine ⟨?_, ?_, ?_, ?_, ?_, ?_⟩
  · have h := map_pk_map_dedup (fun c : CountryRow => c.country_code)
      enrichCountry (fun r => r.country_code) (fun a => rfl) cs
    have : (cleanCountries cs).map (fun r => r.country_code)
        = (dedupBy (fun c : CountryRow => c.country_code) cs).map
            (fun c => c.country_code) := by
      simpa [cleanCountries] using h
    rw [this]
    exact dedupBy_nodup _ cs
  · intro k
    exact filter_map_dedup (fun c : CountryRow => c.country_code)
      enrichCountry (fun r => r.country_code) (fun a => rfl) cs k
  · have hmap : (cleanYears ys).map (fun r => r.year)
        = (sortDesc (fun y => y.year)
            (dedupBy (fun y : YearRow => y.year) ys)).map (fun y => y.year) := by
      rw [cleanYears, List.map_map]
      rfl
    rw [hmap]
    have hperm := (sortDesc_perm (fun y : YearRow => y.year)
      (dedupBy (fun y : YearRow => y.year) ys)).map (fun y : YearRow => y.year)
    exact hperm.nodup_iff.mpr (dedupBy_nodup _ ys)
  · intro k
    exact filter_map_sort_dedup (fun y : YearRow => y.year) (fun y => y.year)
      enrichYear (fun r => r.year) (fun a => rfl) ys k
  · have h := map_pk_map_dedup (fun t : RecordTypeRow => t.record)
      enrichRecordType (fun r => r.record) (fun a => rfl) rs
    have : (cleanRecordTypes rs).map (fun r => r.record)
        = (dedupBy (fun t : RecordTypeRow => t.record) rs).map
            (fun t => t.record) := by
      simpa [cleanRecordTypes] using h
    rw [this]
    exact dedupBy_nodup _ rs
  · intro k
    exact filter_map_dedup (fun t : RecordTypeRow => t.record)
      enrichRecordType (fun r => r.record) (fun a => rfl) rs k

/-! ## Claim C4: fact normalization and per-record loading tolerance -/

theorem fillZero_isNA_false (v : PVal) : v.fillZero.isNA = false := by
  cases v <;> rfl

theorem fillZero_of_na {v : PVal} (h : v = PVal.na) :
    v.fillZero = PVal.num 0 := by
  rw [h]; rfl

theorem fillZero_of_not_na {v : PVal} (h : v ≠ PVal.na) : v.fillZero = v := by
  cases v with
  | na => exact absurd rfl h
  | num q => rfl
  | pinf => rfl
  | ninf => rfl

/-- C4 (amended): after clean_ecological_measures the fact table keeps at
most one row per (year, country_code, record) key - the filled first raw
occurrence; every numeric column (the six components and value) is non-null,
an originally-null numeric cell becomes exactly zero and a non-null cell
passes through unchanged (score untouched); no keyed row is dropped for a
null numeric field; during loading a raw record is skipped exactly when a
primary-key field is missing or its record name has no entry in the
record-code mapping. -/
theorem c4_fact_normalization (ms : List MeasureRow)
    (mapping : List (String × String)) :
    (∀ k, (cleanEcologicalMeasures ms).filter
        (fun m => decide (measureKey m = k))
      = ((ms.find? (fun m => decide (measureKey m = k))).map
          fillComponents).toList)
    ∧ (∀ m ∈ cleanEcologicalMeasures ms,
        m.crop_land.isNA = false ∧ m.grazing_land.isNA = false
        ∧ m.forest_land.isNA = false ∧ m.fishing_ground.isNA = false
        ∧ m.builtup_land.isNA = false ∧ m.carbon.isNA = false
        ∧ m.value.isNA = false)
    ∧ (∀ m0 : MeasureRow, ∀ fld ∈ numericFields,
        (fld m0 = PVal.na → fld (fillComponents m0) = PVal.num 0)
        ∧ (fld m0 ≠ PVal.na → fld (fillComponents m0) = fld m0))
    ∧ (∀ m0 : MeasureRow, (fillComponents m0).score = m0.score)
    ∧ (∀ m0 ∈ ms, ∃ m ∈ cleanEcologicalMeasures ms,
        measureKey m = measureKey m0)
    ∧ (∀ rm : RawMeasure, convMeasure mapping rm = none
        ↔ (rm.countryCode = none ∨ rm.year = none ∨ rm.record = none
           ∨ ∃ r, rm.record = some r ∧ mapping.lookup r = none)) := by
  refine ⟨?_, ?_, ?_, ?_, ?_, ?_⟩
  · intro k
    exact filter_map_dedup measureKey fillComponents measureKey
      (fun a => rfl) ms k
  · intro m hm
    rw [cleanEcologicalMeasures] at hm
    obtain ⟨m0, _, rfl⟩ := List.mem_map.mp hm
    exact ⟨fillZero_isNA_false _, fillZero_isNA_false _, fillZero_isNA_false _,
      fillZero_isNA_false _, fillZero_isNA_false _, fillZero_isNA_false _,
      fillZero_isNA_false _⟩
  · intro m0 fld hfld
    simp only [numericFields, List.mem_cons, List.not_mem_nil, or_false] at hfld
    rcases hfld with rfl | rfl | rfl | rfl | rfl | rfl | rfl <;>
      exact ⟨fun h => fillZero_of_na h, fun h => fillZero_of_not_na h⟩
  · intro m0
    rfl
  · intro m0 hm0
    obtain ⟨y, hy, hk⟩ := key_mem_dedupBy measureKey ms m0 hm0
    exact ⟨fillComponents y, List.mem_map_of_mem fillComponents hy, hk⟩
  · intro rm
    rcases rm with ⟨cc, y, r, f1, f2, f3, f4, f5, f6, f7, f8⟩
    cases cc with
    | none => simp [convMeasure]
    | some cc =>
      cases y with
      | none => simp [convMeasure]
      | some y =>
        cases r with
        | none => simp [convMeasure]
        | some r =>
          cases hlk : mapping.lookup r with
          | none =>
              constructor
              · intro _
                exact Or.inr (Or.inr (Or.inr ⟨r, rfl, hlk⟩))
              · intro _
                simp [convMeasure, hlk]
          | some code =>
              refine iff_of_false ?_ ?_
              · intro h
                simp [convMeasure, hlk] at h
              · rintro (h | h | h | ⟨r2, hr2, hlkr⟩)
                · exact Option.some_ne_none _ h
                · exact Option.some_ne_none _ h
                · exact Option.some_ne_none _ h
                · injection hr2 with hr3
                  rw [← hr3] at hlkr
                  rw [hlk] at hlkr
                  exact Option.noConfusion hlkr

/-- C4 counterexample to the claim as stated: a raw measure with all three
primary-key fields present is nonetheless dropped by the loader because its
record name has no entry in the record-code mapping. -/
theorem c4_counterexample :
    loadMeasuresBatch fallbackRecordMapping [exRawUnmapped] = []
    ∧ exRawUnmapped.countryCode ≠ none
    ∧ exRawUnmapped.year ≠ none
    ∧ exRawUnmapped.record ≠ none := by
  refine ⟨by decide, by decide, by decide, by decide⟩

/-- C4 witness: the amended theorem evaluated on the example biocapacity row
(whose component cells are null): after cleaning, every numeric cell of the
surviving row is non-null. -/
theorem c4_witness :
    (fillComponents exBio).crop_land.isNA = false
    ∧ (fillComponents exBio).grazing_land.isNA = false
    ∧ (fillComponents exBio).forest_land.isNA = false
    ∧ (fillComponents exBio).fishing_ground.isNA = false
    ∧ (fillComponents exBio).builtup_land.isNA = false
    ∧ (fillComponents exBio).carbon.isNA = false
    ∧ (fillComponents exBio).value.isNA = false :=
  (c4_fact_normalization [exBio] fallbackRecordMapping).2.1
    (fillComponents exBio)
    (show fillComponents exBio ∈ cleanEcologicalMeasures [exBio] from
      List.mem_singleton.mpr rfl)

/-! ## Lemmas: PVal null propagation -/

theorem PVal.sub_na_left (x : PVal) : PVal.sub PVal.na x = PVal.na := by
  cases x <;> rfl

theorem PVal.sub_na_right (x : PVal) : PVal.sub x PVal.na = PVal.na := by
  cases x <;> rfl

theorem PVal.div_na_right (x : PVal) : PVal.div x PVal.na = PVal.na := by
  cases x <;> rfl

theorem PVal.lt_na_left (x : PVal) : PVal.lt PVal.na x = false := by
  cases x <;> rfl

/-! ## Lemmas: structure of the ecological-balance output -/

theorem enrichBalance_fields (cs : List CleanCountryRow) (k : BalanceKeyed) :
    ∀ r ∈ enrichBalance cs k,
    r.country_code = k.cc ∧ r.year = k.yr ∧ r.biocapacity = k.bio
    ∧ r.footprint = k.fp ∧ r.ecological_balance = k.bio.sub k.fp
    ∧ r.ecological_ratio = k.bio.div k.fp
    ∧ r.is_deficit = (k.bio.sub k.fp).lt (PVal.num 0) := by
  intro r hr
  simp only [enrichBalance] at hr
  split at hr
  · rw [List.mem_singleton] at hr
    subst hr
    exact ⟨rfl, rfl, rfl, rfl, rfl, rfl, rfl⟩
  · obtain ⟨c, hc, rfl⟩ := List.mem_map.mp hr
    exact ⟨rfl, rfl, rfl, rfl, rfl, rfl, rfl⟩

theorem enrichBalance_exists (cs : List CleanCountryRow) (k : BalanceKeyed) :
    ∃ r ∈ enrichBalance cs k, r.country_code = k.cc ∧ r.year = k.yr
      ∧ r.biocapacity = k.bio ∧ r.footprint = k.fp := by
  simp only [enrichBalance]
  split
  · exact ⟨_, List.mem_singleton.mpr rfl, rfl, rfl, rfl, rfl⟩
  · rename_i h
    rw [List.isEmpty_iff] at h
    obtain ⟨c, hc⟩ := List.exists_mem_of_ne_nil _ h
    exact ⟨_, List.mem_map_of_mem _ hc, rfl, rfl, rfl, rfl⟩

theorem mergeLeft_mem_match (fp : List KV) (b f : KV) (hf : f ∈ fp)
    (hcc : f.cc = b.cc) (hyr : f.yr = b.yr) :
    (⟨b.cc, b.yr, b.v, f.v⟩ : BalanceKeyed) ∈ mergeLeft fp b := by
  have hfm : f ∈ fp.filter
      (fun g => decide (g.cc = b.cc) && decide (g.yr = b.yr)) :=
    List.mem_filter.mpr ⟨hf, by simp [hcc, hyr]⟩
  have hne := List.ne_nil_of_mem hfm
  simp only [mergeLeft]
  rw [if_neg (by simpa [List.isEmpty_iff] using hne)]
  exact List.mem_map_of_mem _ hfm

theorem mergeLeft_nomatch (fp : List KV) (b : KV)
    (hnone : ∀ f ∈ fp, ¬(f.cc = b.cc ∧ f.yr = b.yr)) :
    mergeLeft fp b = [⟨b.cc, b.yr, b.v, PVal.na⟩] := by
  have hnil : fp.filter
      (fun g => decide (g.cc = b.cc) && decide (g.yr = b.yr)) = [] := by
    rw [List.filter_eq_nil_iff]
    intro f hf
    simp only [Bool.and_eq_true, decide_eq_true_eq, not_and]
    exact fun h1 h2 => hnone f hf ⟨h1, h2⟩
  simp only [mergeLeft, hnil]
  rfl

theorem mergeOuter_mem_left (bio fp : List KV) (b : KV) (hb : b ∈ bio)
    (x : BalanceKeyed) (hx : x ∈ mergeLeft fp b) :
    x ∈ mergeOuterBalance bio fp := by
  rw [mergeOuterBalance]
  exact List.mem_append_left _ (List.mem_flatMap.mpr ⟨b, hb, hx⟩)

theorem mergeOuter_mem_right (bio fp : List KV) (f : KV) (hf : f ∈ fp)
    (hnone : ∀ b ∈ bio, ¬(f.cc = b.cc ∧ f.yr = b.yr)) :
    (⟨f.cc, f.yr, PVal.na, f.v⟩ : BalanceKeyed) ∈ mergeOuterBalance bio fp := by
  rw [mergeOuterBalance]
  apply List.mem_append_right
  apply List.mem_map_of_mem
  rw [List.mem_filter]
  refine ⟨hf, ?_⟩
  rw [Bool.not_eq_true', List.any_eq_false]
  intro b hb
  simp only [Bool.and_eq_true, decide_eq_true_eq, not_and]
  exact fun h1 h2 => hnone b hb ⟨h1, h2⟩

theorem calcEco_eq (ms : List MeasureRow) (cs : List CleanCountryRow)
    (h1 : ms ≠ []) (h2 : cs ≠ []) (h3 : bioSubset ms ≠ [])
    (h4 : fpSubset ms ≠ []) :
    calculateEcologicalIndicators ms cs
      = (mergeOuterBalance (bioSubset ms) (fpSubset ms)).flatMap
          (enrichBalance cs) := by
  rw [calculateEcologicalIndicators,
    if_neg (by simp [List.isEmpty_iff, h1, h2]),
    if_neg (by simp [List.isEmpty_iff, h3, h4])]

theorem calcEco_mem_fields (ms : List MeasureRow) (cs : List CleanCountryRow) :
    ∀ r ∈ calculateEcologicalIndicators ms cs,
    r.ecological_balance = r.biocapacity.sub r.footprint
    ∧ r.ecological_ratio = r.biocapacity.div r.footprint
    ∧ r.is_deficit = r.ecological_balance.lt (PVal.num 0) := by
  intro r hr
  rw [calculateEcologicalIndicators] at hr
  split at hr
  · exact absurd hr (List.not_mem_nil r)
  · split at hr
    · exact absurd hr (List.not_mem_nil r)
    · obtain ⟨k, hk, hrk⟩ := List.mem_flatMap.mp hr
      obtain ⟨_, _, hbio, hfp, hbal, hratio, hdef⟩ :=
        enrichBalance_fields cs k r hrk
      exact ⟨by rw [hbal, hbio, hfp], by rw [hratio, hbio, hfp],
        by rw [hdef, hbal]⟩

theorem PVal.div_na_left (x : PVal) : PVal.div PVal.na x = PVal.na := by
  cases x <;> rfl

theorem mem_bioSubset (ms : List MeasureRow) (m : MeasureRow) (hm : m ∈ ms)
    (hr : m.record = "BiocapPerCap") :
    KV.mk m.country_code m.year m.value ∈ bioSubset ms :=
  List.mem_map_of_mem _ (List.mem_filter.mpr ⟨hm, by simp [hr]⟩)

theorem mem_fpSubset (ms : List MeasureRow) (m : MeasureRow) (hm : m ∈ ms)
    (hr : m.record = "EFConsPerCap") :
    KV.mk m.country_code m.year m.value ∈ fpSubset ms :=
  List.mem_map_of_mem _ (List.mem_filter.mpr ⟨hm, by simp [hr]⟩)

theorem bioSubset_src (ms : List MeasureRow) (f : KV) (hf : f ∈ bioSubset ms) :
    ∃ m ∈ ms, m.record = "BiocapPerCap" ∧ f.cc = m.country_code
      ∧ f.yr = m.year ∧ f.v = m.value := by
  obtain ⟨m, hm, rfl⟩ := List.mem_map.mp hf
  obtain ⟨hms, hrec⟩ := List.mem_filter.mp hm
  exact ⟨m, hms, by simpa using hrec, rfl, rfl, rfl⟩

theorem fpSubset_src (ms : List MeasureRow) (f : KV) (hf : f ∈ fpSubset ms) :
    ∃ m ∈ ms, m.record = "EFConsPerCap" ∧ f.cc = m.country_code
      ∧ f.yr = m.year ∧ f.v = m.value := by
  obtain ⟨m, hm, rfl⟩ := List.mem_map.mp hf
  obtain ⟨hms, hrec⟩ := List.mem_filter.mp hm
  exact ⟨m, hms, by simpa using hrec, rfl, rfl, rfl⟩

/-- C2: whenever the measures input holds both a BiocapPerCap row and an
EFConsPerCap row for the same (country_code, year) (and the country dimension
context is nonempty), the ecological-balance output has a row for that key
whose biocapacity and footprint are the two values and whose
ecological_balance is exactly biocapacity minus footprint, with is_deficit
exactly the comparison of the balance against zero. -/
theorem c2_balance_exact (ms : List MeasureRow) (cs : List CleanCountryRow)
    (mb mf : MeasureRow) (hmb : mb ∈ ms) (hmf : mf ∈ ms)
    (hrb : mb.record = "BiocapPerCap") (hrf : mf.record = "EFConsPerCap")
    (hcc : mf.country_code = mb.country_code) (hyr : mf.year = mb.year)
    (hcs : cs ≠ []) :
    ∃ r ∈ calculateEcologicalIndicators ms cs,
      r.country_code = mb.country_code ∧ r.year = mb.year
      ∧ r.biocapacity = mb.value ∧ r.footprint = mf.value
      ∧ r.ecological_balance = r.biocapacity.sub r.footprint
      ∧ r.is_deficit = r.ecological_balance.lt (PVal.num 0) := by
  have hb := mem_bioSubset ms mb hmb hrb
  have hf := mem_fpSubset ms mf hmf hrf
  have hmatch := mergeLeft_mem_match (fpSubset ms)
    (KV.mk mb.country_code mb.year mb.value)
    (KV.mk mf.country_code mf.year mf.value) hf (by simpa using hcc)
    (by simpa using hyr)
  have hmerge := mergeOuter_mem_left (bioSubset ms) (fpSubset ms) _ hb _ hmatch
  obtain ⟨r, hr, hrcc, hryr, hrbio, hrfp⟩ := enrichBalance_exists cs
    ⟨mb.country_code, mb.year, mb.value, mf.value⟩
  have hrmem : r ∈ calculateEcologicalIndicators ms cs := by
    rw [calcEco_eq ms cs (List.ne_nil_of_mem hmb) hcs
      (List.ne_nil_of_mem hb) (List.ne_nil_of_mem hf)]
    exact List.mem_flatMap.mpr ⟨_, hmerge, hr⟩
  obtain ⟨hbal, _, hdef⟩ := calcEco_mem_fields ms cs r hrmem
  exact ⟨r, hrmem, hrcc, hryr, hrbio, hrfp, hbal, hdef⟩

/-- C2 witness: the theorem applied to the spec example scenario (country 2,
year 2020, biocapacity 0.5, footprint 1.5). -/
theorem c2_witness :
    ∃ r ∈ calculateEcologicalIndicators [exBio, exFp] [exCountry],
      r.country_code = exBio.country_code ∧ r.year = exBio.year
      ∧ r.biocapacity = exBio.value ∧ r.footprint = exFp.value
      ∧ r.ecological_balance = r.biocapacity.sub r.footprint
      ∧ r.is_deficit = r.ecological_balance.lt (PVal.num 0) :=
  c2_balance_exact [exBio, exFp] [exCountry] exBio exFp (by simp) (by simp)
    rfl rfl rfl rfl (by simp)

/-- C10: in every ecological-balance output row with a null biocapacity or a
null footprint, is_deficit is the boolean false (never null): the null
balance compares as not-less-than-zero. -/
theorem c10_deficit_false_on_null (ms : List MeasureRow)
    (cs : List CleanCountryRow) :
    ∀ r ∈ calculateEcologicalIndicators ms cs,
      (r.biocapacity = PVal.na ∨ r.footprint = PVal.na) →
        r.is_deficit = false := by
  intro r hr hna
  obtain ⟨hbal, _, hdef⟩ := calcEco_mem_fields ms cs r hr
  have hbna : r.ecological_balance = PVal.na := by
    rcases hna with h | h
    · rw [hbal, h]
      exact PVal.sub_na_left _
    · rw [hbal, h]
      exact PVal.sub_na_right _
  rw [hdef, hbna]
  rfl

/-- C10 witness: on an input where country 2 has only a biocapacity row, the
first output row has a null footprint and its is_deficit is false. -/
theorem c10_witness :
    ((calculateEcologicalIndicators [exBio, exFpOther]
      [exCountry]).headI).is_deficit = false := by
  have hEq : calculateEcologicalIndicators [exBio, exFpOther] [exCountry]
      = [⟨"2", 2020, PVal.num (1/2), PVal.na, PVal.na, PVal.na, false,
          some "Afghanistan", some "Unknown", some "Unknown"⟩,
         ⟨"3", 2019, PVal.na, PVal.num 2, PVal.na, PVal.na, false,
          none, none, none⟩] := by
    simp [calculateEcologicalIndicators, bioSubset, fpSubset,
      mergeOuterBalance, mergeLeft, enrichBalance, exBio, exFpOther,
      exCountry, PVal.sub, PVal.div, PVal.lt]
  rw [hEq]
  exact c10_deficit_false_on_null [exBio, exFpOther] [exCountry] _
    (by rw [hEq]; exact List.mem_cons_self _ _) (Or.inr rfl)

/-- C5 (amended): provided both record subsets are nonempty somewhere in the
input (and the country context is nonempty), a (country_code, year) present
in only one of the BiocapPerCap / EFConsPerCap subsets still appears as an
output row, with the missing side null and the resulting balance and ratio
null.  (The provisos are forced by the guard in the code that returns an
empty result when either subset is globally empty.) -/
theorem c5_one_sided_rows (ms : List MeasureRow) (cs : List CleanCountryRow)
    (hcs : cs ≠ []) (hbioNE : bioSubset ms ≠ []) (hfpNE : fpSubset ms ≠ []) :
    (∀ mb ∈ ms, mb.record = "BiocapPerCap" →
      (∀ mf ∈ ms, mf.record = "EFConsPerCap" →
        ¬(mf.country_code = mb.country_code ∧ mf.year = mb.year)) →
      ∃ r ∈ calculateEcologicalIndicators ms cs,
        r.country_code = mb.country_code ∧ r.year = mb.year
        ∧ r.biocapacity = mb.value ∧ r.footprint = PVal.na
        ∧ r.ecological_balance = PVal.na ∧ r.ecological_ratio = PVal.na)
    ∧ (∀ mf ∈ ms, mf.record = "EFConsPerCap" →
      (∀ mb ∈ ms, mb.record = "BiocapPerCap" →
        ¬(mb.country_code = mf.country_code ∧ mb.year = mf.year)) →
      ∃ r ∈ calculateEcologicalIndicators ms cs,
        r.country_code = mf.country_code ∧ r.year = mf.year
        ∧ r.biocapacity = PVal.na ∧ r.footprint = mf.value
        ∧ r.ecological_balance = PVal.na ∧ r.ecological_ratio = PVal.na) := by
  have hne : ms ≠ [] := by
    intro h
    exact hbioNE (by simp [bioSubset, h])
  constructor
  · intro mb hmb hrb hnone
    have hb := mem_bioSubset ms mb hmb hrb
    have hnoneKV : ∀ f ∈ fpSubset ms,
        ¬(f.cc = mb.country_code ∧ f.yr = mb.year) := by
      intro f hf hkey
      obtain ⟨mf, hmf, hrec, hfcc, hfyr, _⟩ := fpSubset_src ms f hf
      exact hnone mf hmf hrec ⟨hfcc ▸ hkey.1, hfyr ▸ hkey.2⟩
    have hmerge := mergeOuter_mem_left (bioSubset ms) (fpSubset ms) _ hb _
      (by
        rw [mergeLeft_nomatch (fpSubset ms)
          (KV.mk mb.country_code mb.year mb.value) hnoneKV]
        exact List.mem_singleton.mpr rfl)
    obtain ⟨r, hr, hrcc, hryr, hrbio, hrfp⟩ := enrichBalance_exists cs
      ⟨mb.country_code, mb.year, mb.value, PVal.na⟩
    have hrmem : r ∈ calculateEcologicalIndicators ms cs := by
      rw [calcEco_eq ms cs hne hcs hbioNE hfpNE]
      exact List.mem_flatMap.mpr ⟨_, hmerge, hr⟩
    obtain ⟨hbal, hratio, _⟩ := calcEco_mem_fields ms cs r hrmem
    refine ⟨r, hrmem, hrcc, hryr, hrbio, hrfp, ?_, ?_⟩
    · rw [hbal, hrfp]
      exact PVal.sub_na_right _
    · rw [hratio, hrfp]
      exact PVal.div_na_right _
  · intro mf hmf hrf hnone
    have hf := mem_fpSubset ms mf hmf hrf
    have hnoneKV : ∀ b ∈ bioSubset ms,
        ¬((KV.mk mf.country_code mf.year mf.value).cc = b.cc
          ∧ (KV.mk mf.country_code mf.year mf.value).yr = b.yr) := by
      intro b hb hkey
      obtain ⟨mb, hmb, hrec, hbcc, hbyr, _⟩ := bioSubset_src ms b hb
      exact hnone mb hmb hrec ⟨by rw [← hbcc, ← hkey.1], by rw [← hbyr, ← hkey.2]⟩
    have hmerge := mergeOuter_mem_right (bioSubset ms) (fpSubset ms) _ hf hnoneKV
    obtain ⟨r, hr, hrcc, hryr, hrbio, hrfp⟩ := enrichBalance_exists cs
      ⟨mf.country_code, mf.year, PVal.na, mf.value⟩
    have hrmem : r ∈ calculateEcologicalIndicators ms cs := by
      rw [calcEco_eq ms cs hne hcs hbioNE hfpNE]
      exact List.mem_flatMap.mpr ⟨_, hmerge, hr⟩
    obtain ⟨hbal, hratio, _⟩ := calcEco_mem_fields ms cs r hrmem
    refine ⟨r, hrmem, hrcc, hryr, hrbio, hrfp, ?_, ?_⟩
    · rw [hbal, hrbio]
      exact PVal.sub_na_left _
    · rw [hratio, hrbio]
      exact PVal.div_na_left _

/-- C5 counterexample to the claim as stated: a measures input whose only row
is a BiocapPerCap measure (so the EFConsPerCap subset is globally empty)
yields an empty balance output - the one-sided row is dropped, contradicting
the claim that such rows always appear. -/
theorem c5_counterexample :
    exBio.record = "BiocapPerCap"
    ∧ calculateEcologicalIndicators [exBio] [exCountry] = [] := by
  refine ⟨rfl, ?_⟩
  simp [calculateEcologicalIndicators, bioSubset, fpSubset, exBio]

/-- C5 witness: the amended theorem applied to an input where country 2 has
only a biocapacity row while the footprint subset is nonempty elsewhere. -/
theorem c5_witness :
    ∃ r ∈ calculateEcologicalIndicators [exBio, exFpOther] [exCountry],
      r.country_code = exBio.country_code ∧ r.year = exBio.year
      ∧ r.biocapacity = exBio.value ∧ r.footprint = PVal.na
      ∧ r.ecological_balance = PVal.na ∧ r.ecological_ratio = PVal.na :=
  (c5_one_sided_rows [exBio, exFpOther] [exCountry] (by simp)
      (by simp [bioSubset, exBio, exFpOther])
      (by simp [fpSubset, exBio, exFpOther])).1
    exBio (by simp) rfl (by decide)

theorem pctOf_nonfinite (c t : PVal) (h : t = PVal.na ∨ t = PVal.num 0) :
    (pctOf c t).isFinite = false := by
  rcases h with rfl | rfl
  · rw [pctOf, PVal.div_na_right]
    rfl
  · cases c with
    | na => rfl
    | num a =>
        simp only [pctOf, PVal.div, if_pos rfl]
        by_cases ha : a = 0
        · rw [if_pos ha]
          rfl
        · rw [if_neg ha]
          by_cases hpos : 0 < a
          · rw [if_pos hpos]
            norm_num [PVal.mul, PVal.isFinite]
          · rw [if_neg hpos]
            norm_num [PVal.mul, PVal.isFinite]
    | pinf =>
        simp only [pctOf, PVal.div, le_refl, if_pos]
        norm_num [PVal.mul, PVal.isFinite]
    | ninf =>
        simp only [pctOf, PVal.div, le_refl, if_pos]
        norm_num [PVal.mul, PVal.isFinite]

theorem div_zero_null_nonfinite (b t : PVal)
    (h : t = PVal.na ∨ t = PVal.num 0) : (b.div t).isFinite = false := by
  rcases h with rfl | rfl
  · rw [PVal.div_na_right]
    rfl
  · cases b with
    | na => rfl
    | num a =>
        simp only [PVal.div, if_pos rfl]
        by_cases ha : a = 0
        · rw [if_pos ha]
          rfl
        · rw [if_neg ha]
          by_cases hpos : 0 < a
          · rw [if_pos hpos]
            rfl
          · rw [if_neg hpos]
            rfl
    | pinf =>
        simp only [PVal.div, le_refl, if_pos]
        rfl
    | ninf =>
        simp only [PVal.div, le_refl, if_pos]
        rfl

/-- C6 (amended): dividing a component (or biocapacity) by a zero or null
total never raises - every arithmetic step is total - and the resulting
percentage, carbon dependency or ratio is never a spurious finite number: it
is NaN when the numerator is zero or null (or the total is null) and a
signed infinity when a nonzero numerator is divided by zero, exactly the
pandas float64 behaviour. -/
theorem c6_division_edge_cases (ms : List MeasureRow)
    (cs : List CleanCountryRow) :
    (∀ r ∈ calculateFootprintComposition ms,
      r.src.value = PVal.na ∨ r.src.value = PVal.num 0 →
        r.crop_land_pct.isFinite = false
        ∧ r.grazing_land_pct.isFinite = false
        ∧ r.forest_land_pct.isFinite = false
        ∧ r.fishing_ground_pct.isFinite = false
        ∧ r.builtup_land_pct.isFinite = false
        ∧ r.carbon_pct.isFinite = false
        ∧ r.carbon_dependency.isFinite = false)
    ∧ (∀ r ∈ calculateEcologicalIndicators ms cs,
        r.footprint = PVal.na ∨ r.footprint = PVal.num 0 →
          r.ecological_ratio.isFinite = false) := by
  constructor
  · intro r hr h
    rw [calculateFootprintComposition] at hr
    split at hr
    · exact absurd hr (List.not_mem_nil r)
    · obtain ⟨m, hm, rfl⟩ := List.mem_map.mp hr
      exact ⟨pctOf_nonfinite _ _ h, pctOf_nonfinite _ _ h,
        pctOf_nonfinite _ _ h, pctOf_nonfinite _ _ h, pctOf_nonfinite _ _ h,
        pctOf_nonfinite _ _ h, pctOf_nonfinite _ _ h⟩
  · intro r hr h
    obtain ⟨_, hratio, _⟩ := calcEco_mem_fields ms cs r hr
    rw [hratio]
    exact div_zero_null_nonfinite _ _ h

/-- C6 counterexample to the claim as stated: a footprint row with total
value zero and carbon component 1 produces a carbon dependency of plus
infinity, which is not a null/NaN value. -/
theorem c6_counterexample :
    (calculateFootprintComposition [exZeroTotal]).map
      (fun r => r.carbon_dependency) = [PVal.pinf]
    ∧ PVal.pinf.isNA = false := by
  constructor
  · norm_num [calculateFootprintComposition, exZeroTotal, pctOf, PVal.div,
      PVal.mul]
  · rfl

/-- C6 witness: the amended theorem applied to the zero-total row: its carbon
dependency is not a finite number. -/
theorem c6_witness :
    (pctOf exZeroTotal.carbon exZeroTotal.value).isFinite = false :=
  ((c6_division_edge_cases [exZeroTotal] []).1
    ⟨exZeroTotal, pctOf exZeroTotal.crop_land exZeroTotal.value,
     pctOf exZeroTotal.grazing_land exZeroTotal.value,
     pctOf exZeroTotal.forest_land exZeroTotal.value,
     pctOf exZeroTotal.fishing_ground exZeroTotal.value,
     pctOf exZeroTotal.builtup_land exZeroTotal.value,
     pctOf exZeroTotal.carbon exZeroTotal.value,
     pctOf exZeroTotal.carbon exZeroTotal.value⟩
    (List.mem_singleton.mpr rfl) (Or.inr rfl)).2.2.2.2.2.2

theorem lookup_val_mem [BEq α] (l : List (α × β)) (k : α) (v : β)
    (h : List.lookup k l = some v) : v ∈ l.map (fun p => p.2) := by
  induction l with
  | nil => simp [List.lookup] at h
  | cons p ps ih =>
      obtain ⟨k1, v1⟩ := p
      by_cases heq : (k == k1) = true
      · simp only [List.lookup, heq] at h
        injection h with h2
        exact h2 ▸ List.mem_cons_self _ _
      · rw [Bool.not_eq_true] at heq
        simp only [List.lookup, heq] at h
        exact List.mem_cons_of_mem _ (ih h)

/-- C7 (amended): the derived category of every cleaned record-type row is
the category-table entry keyed by exactly the first four characters of the
short code (the whole code when shorter than four), and is Other precisely
when that four-character slice is not a key of the table; the result always
lies in the six-value enumeration.  (A table entry that is a longer or
shorter prefix of the code - such as EFCpc or EFC for the code EFCpc - is
not consulted.) -/
theorem c7_category_fixed_slice (rs : List RecordTypeRow) :
    ∀ rt ∈ cleanRecordTypes rs,
      (∀ cat, categoryMapping.lookup (rt.code.take 4) = some cat →
        rt.category = cat)
      ∧ (categoryMapping.lookup (rt.code.take 4) = none →
        rt.category = "Other")
      ∧ (rt.category = "Biocapacity" ∨ rt.category = "Ecological Footprint"
         ∨ rt.category = "Population" ∨ rt.category = "Land Use"
         ∨ rt.category = "Economic" ∨ rt.category = "Other") := by
  intro rt hrt
  rw [cleanRecordTypes] at hrt
  obtain ⟨r0, _, rfl⟩ := List.mem_map.mp hrt
  refine ⟨?_, ?_, ?_⟩
  · intro cat hcat
    simp only [enrichRecordType] at hcat ⊢
    rw [hcat]
    rfl
  · intro hnone
    simp only [enrichRecordType] at hnone ⊢
    rw [hnone]
    rfl
  · cases hlk : categoryMapping.lookup ((enrichRecordType r0).code.take 4) with
    | none =>
        have : (enrichRecordType r0).category = "Other" := by
          simp only [enrichRecordType] at hlk ⊢
          rw [hlk]
          rfl
        exact Or.inr (Or.inr (Or.inr (Or.inr (Or.inr this))))
    | some cat =>
        have hcat : (enrichRecordType r0).category = cat := by
          simp only [enrichRecordType] at hlk ⊢
          rw [hlk]
          rfl
        have hmem := lookup_val_mem categoryMapping _ cat hlk
        rw [hcat]
        simp only [categoryMapping, List.map_cons, List.map_nil,
          List.mem_cons, List.not_mem_nil, or_false] at hmem
        rcases hmem with h | h | h | h | h | h | h <;> subst h <;> simp

/-- C7 counterexample to the claim as stated: the code EFCpc has two
category-table entries among its prefixes (EFC and EFCpc itself, both mapping
to Ecological Footprint), yet its derived category is Other, because the
four-character slice EFCp is not a key. -/
theorem c7_counterexample :
    (cleanRecordTypes [exRtEFCpc]).map (fun r => r.category) = ["Other"]
    ∧ leadsWith "EFC".toList "EFCpc".toList = true
    ∧ leadsWith "EFCpc".toList "EFCpc".toList = true
    ∧ categoryMapping.lookup "EFC" = some "Ecological Footprint"
    ∧ categoryMapping.lookup "EFCpc" = some "Ecological Footprint"
    ∧ ("Other" : String) ≠ "Ecological Footprint" := by
  refine ⟨?_, ?_, ?_, ?_, ?_, ?_⟩ <;> decide

/-- C7 witness: a code whose four-character slice is a key (BCpc) receives
that entry's category. -/
theorem c7_witness : (enrichRecordType exRtBCpc).category = "Biocapacity" :=
  (c7_category_fixed_slice [exRtBCpc] (enrichRecordType exRtBCpc)
    (List.mem_singleton.mpr rfl)).1 "Biocapacity" (by decide)

/-! ## Lemmas: snapshot filename stem extraction -/

theorem leadsWith_length_le :
    ∀ (p l : List Char), leadsWith p l = true → p.length ≤ l.length := by
  intro p
  induction p with
  | nil => intro l _; simp
  | cons a as ih =>
      intro l h
      cases l with
      | nil => simp [leadsWith] at h
      | cons b bs =>
          simp only [leadsWith, Bool.and_eq_true] at h
          simpa using ih bs h.2

theorem hasSeq_length_le :
    ∀ (l p : List Char), hasSeq p l = true → p.length ≤ l.length := by
  intro l
  induction l with
  | nil =>
      intro p h
      simp only [hasSeq, List.isEmpty_iff] at h
      simp [h]
  | cons c cs ih =>
      intro p h
      simp only [hasSeq, Bool.or_eq_true] at h
      rcases h with h | h
      · exact leadsWith_length_le p (c :: cs) h
      · exact (ih p h).trans (by simp)

theorem leadsWith_append_left :
    ∀ (p l r : List Char), leadsWith p l = true →
      leadsWith p (l ++ r) = true := by
  intro p
  induction p with
  | nil => intro l r _; simp [leadsWith]
  | cons a as ih =>
      intro l r h
      cases l with
      | nil => simp [leadsWith] at h
      | cons b bs =>
          simp only [leadsWith, Bool.and_eq_true] at h
          simp only [List.cons_append, leadsWith, Bool.and_eq_true]
          exact ⟨h.1, ih bs r h.2⟩

theorem leadsWith_append_of_le :
    ∀ (p l r : List Char), p.length ≤ l.length →
      leadsWith p (l ++ r) = leadsWith p l := by
  intro p
  induction p with
  | nil => intro l r _; simp [leadsWith]
  | cons a as ih =>
      intro l r h
      cases l with
      | nil => simp at h
      | cons b bs =>
          simp only [List.cons_append, leadsWith, List.append_eq]
          rw [ih bs r (by simpa using h)]

theorem splitHead_cons_false (p : List Char) (c : Char) (cs : List Char)
    (h : leadsWith p (c :: cs) = false) :
    splitHead p (c :: cs) = c :: splitHead p cs := by
  simp [splitHead, h]

theorem splitHead_append_of_hasSeq :
    ∀ (L r p : List Char), hasSeq p L = true →
      splitHead p (L ++ r) = splitHead p L := by
  intro L
  induction L with
  | nil =>
      intro r p h
      simp only [hasSeq, List.isEmpty_iff] at h
      subst h
      cases r with
      | nil => rfl
      | cons a as => simp [splitHead, leadsWith]
  | cons c cs ih =>
      intro r p h
      simp only [hasSeq, Bool.or_eq_true] at h
      cases hpref : leadsWith p (c :: cs) with
      | true =>
          have hext : leadsWith p (c :: (cs ++ r)) = true := by
            have h2 := leadsWith_append_left p (c :: cs) r hpref
            simpa using h2
          simp [List.cons_append, splitHead, hext, hpref]
      | false =>
          have hcs : hasSeq p cs = true := by
            rcases h with h | h
            · rw [hpref] at h
              exact absurd h (by simp)
            · exact h
          have hlen : p.length ≤ (c :: cs).length :=
            (hasSeq_length_le cs p hcs).trans (by simp)
          have hext : leadsWith p (c :: (cs ++ r)) = false := by
            have h2 := leadsWith_append_of_le p (c :: cs) r hlen
            simp only [List.cons_append] at h2
            rw [h2, hpref]
          simp [List.cons_append, splitHead, hext, hpref, ih r p hcs]

theorem splitHead_length_lt :
    ∀ (L p : List Char), hasSeq p L = true → p ≠ [] →
      (splitHead p L).length < L.length := by
  intro L
  induction L with
  | nil =>
      intro p h hp
      simp only [hasSeq, List.isEmpty_iff] at h
      exact absurd h hp
  | cons c cs ih =>
      intro p h hp
      simp only [hasSeq, Bool.or_eq_true] at h
      cases hpref : leadsWith p (c :: cs) with
      | true =>
          simp [splitHead, hpref]
      | false =>
          have hcs : hasSeq p cs = true := by
            rcases h with h | h
            · rw [hpref] at h
              exact absurd h (by simp)
            · exact h
          simp only [splitHead, hpref, Bool.false_eq_true, if_false,
            List.length_cons]
          simpa using ih p hcs hp

theorem splitHead_tsPat_roundtrip :
    ∀ (L r : List Char), hasSeq tsPat L = false →
      splitHead tsPat (L ++ '_' :: '2' :: '0' :: r) = L := by
  intro L
  induction L with
  | nil =>
      intro r _
      simp [splitHead, tsPat, leadsWith]
  | cons c L ih =>
      intro r h
      simp only [hasSeq, Bool.or_eq_false_iff] at h
      cases L with
      | nil =>
          simp [splitHead, tsPat, leadsWith]
      | cons d L2 =>
          cases L2 with
          | nil =>
              simp [splitHead, tsPat, leadsWith]
          | cons e L3 =>
              have hlen : tsPat.length ≤ (c :: d :: e :: L3).length := by
                simp [tsPat]
              have hext := leadsWith_append_of_le tsPat (c :: d :: e :: L3)
                ('_' :: '2' :: '0' :: r) hlen
              have hpref : leadsWith tsPat
                  ((c :: d :: e :: L3) ++ '_' :: '2' :: '0' :: r) = false := by
                rw [hext]
                exact h.1
              rw [List.cons_append, splitHead_cons_false _ _ _
                (by simpa using hpref), ih r h.2]

/-- C9: for a snapshot filename consisting of a logical-name stem, an
underscore and a timestamp beginning with 20, stem extraction (split on the
first occurrence of the pattern underscore-2-0) recovers exactly the logical
name when the name contains no such occurrence - and the target table is that
stem mapped through the name mapping, the stem itself when unmapped; when the
logical name does contain the pattern, extraction silently truncates it at
the first occurrence, so the round trip fails. -/
theorem c9_stem_roundtrip (L ts : List Char)
    (mapping : List (String × String)) (hts : ∃ r, ts = '2' :: '0' :: r) :
    (hasSeq tsPat L = false →
      extractStem (String.mk (L ++ '_' :: ts)) = String.mk L
      ∧ tableNameFor mapping (String.mk (L ++ '_' :: ts))
          = ((mapping.lookup (String.mk L)).getD (String.mk L)))
    ∧ (hasSeq tsPat L = true →
      extractStem (String.mk (L ++ '_' :: ts)) = extractStem (String.mk L)
      ∧ extractStem (String.mk L) ≠ String.mk L) := by
  obtain ⟨r, rfl⟩ := hts
  constructor
  · intro h
    have h1 : splitHead tsPat (L ++ '_' :: '2' :: '0' :: r) = L :=
      splitHead_tsPat_roundtrip L r h
    have h2 : extractStem (String.mk (L ++ '_' :: '2' :: '0' :: r))
        = String.mk L := by
      rw [extractStem]
      exact congrArg String.mk h1
    refine ⟨h2, ?_⟩
    simp only [tableNameFor]
    rw [h2]
  · intro h
    constructor
    · rw [extractStem, extractStem]
      exact congrArg String.mk
        (splitHead_append_of_hasSeq L ('_' :: '2' :: '0' :: r) tsPat h)
    · rw [extractStem]
      intro heq
      have hlt := splitHead_length_lt L tsPat h (by simp [tsPat])
      have h5 : splitHead tsPat L = L := congrArg String.toList heq
      rw [h5] at hlt
      exact lt_irrefl _ hlt

/-- C9 witness: the name dim_countries round-trips through its snapshot
filename and maps to the table countries, while a logical name containing
the pattern (fact_2021_data) is truncated to fact. -/
theorem c9_witness :
    extractStem (String.mk ("dim_countries".toList
        ++ '_' :: "20250101_000000.parquet".toList)) = "dim_countries"
    ∧ tableNameFor [("dim_countries", "countries")]
        (String.mk ("dim_countries".toList
          ++ '_' :: "20250101_000000.parquet".toList)) = "countries"
    ∧ extractStem (String.mk "fact_2021_data".toList)
        ≠ String.mk "fact_2021_data".toList := by
  have h1 := (c9_stem_roundtrip "dim_countries".toList
    "20250101_000000.parquet".toList [("dim_countries", "countries")]
    ⟨"250101_000000.parquet".toList, rfl⟩).1 (by decide)
  have h2 := (c9_stem_roundtrip "fact_2021_data".toList
    "20250101_000000.parquet".toList []
    ⟨"250101_000000.parquet".toList, rfl⟩).2 (by decide)
  exact ⟨h1.1, h1.2, h2.2⟩

/-! ## Lemmas: transactional batch import -/

theorem batchGo_fail_spec (mapping : List (String × String)) (saved : Store) :
    ∀ (pre : List SnapFile) (bad : SnapFile) (post : List SnapFile)
      (s : Store) (acc : List (String × ImpResult)),
      (∀ f ∈ pre, f.content ≠ none) → bad.content = none →
      batchGo mapping true saved s acc (pre ++ bad :: post)
        = (saved, acc
            ++ pre.map (fun f => (tableNameFor mapping f.name,
                ⟨f.name, (f.content.getD []).length, true⟩))
            ++ [(tableNameFor mapping bad.name, ⟨bad.name, 0, false⟩)]) := by
  intro pre
  induction pre with
  | nil =>
      intro bad post s acc _ hbad
      simp [batchGo, importParquet, hbad]
  | cons f pre ih =>
      intro bad post s acc hgood hbad
      have hf := hgood f (List.mem_cons_self f pre)
      obtain ⟨rows, hrows⟩ := Option.ne_none_iff_exists'.mp hf
      rw [List.cons_append]
      simp only [batchGo, importParquet, hrows]
      rw [ih bad post _ _
        (fun g hg => hgood g (List.mem_cons_of_mem f hg)) hbad]
      simp [hrows]

theorem dictLookup_eq_none {β : Type _} (l : List (String × β)) (k : String)
    (h : k ∉ l.map (fun p => p.1)) : dictLookup l k = none := by
  induction l with
  | nil => rfl
  | cons p ps ih =>
      obtain ⟨k1, v1⟩ := p
      simp only [List.map_cons, List.mem_cons, not_or] at h
      simp only [dictLookup, ih h.2]
      rw [if_neg (fun he => h.1 he.symm)]

theorem dictLookup_of_nodup {β : Type _} (l : List (String × β))
    (hnodup : (l.map (fun p => p.1)).Nodup) (k : String) (v : β)
    (hmem : (k, v) ∈ l) : dictLookup l k = some v := by
  induction l with
  | nil => simp at hmem
  | cons p ps ih =>
      obtain ⟨k1, v1⟩ := p
      simp only [List.map_cons, List.nodup_cons] at hnodup
      rcases List.mem_cons.mp hmem with heq | hmem2
      · injection heq with hk hv
        subst hk
        subst hv
        have hnone : dictLookup ps k = none :=
          dictLookup_eq_none ps k hnodup.1
        simp [dictLookup, hnone]
      · simp only [dictLookup, ih hnodup.2 hmem2]

theorem dictLookup_append_single {β : Type _} (l : List (String × β))
    (k : String) (v : β) (key : String) :
    dictLookup (l ++ [(k, v)]) key
      = if k = key then some v else dictLookup l key := by
  induction l with
  | nil => simp [dictLookup]
  | cons p ps ih =>
      obtain ⟨k1, v1⟩ := p
      simp only [List.cons_append, dictLookup, List.append_eq]
      rw [ih]
      by_cases hk : k = key
      · rw [if_pos hk, if_pos hk]
      · rw [if_neg hk, if_neg hk]

/-- C1: when the N-th file of a transactional batch fails to import (every
file before it succeeding), batch_import_directory rolls back to the initial
store - none of the batch's tables is persisted - and returns immediately:
the result map holds exactly one entry per processed file, an error entry
for the failing table and a success entry (with its row count) for every
table imported before the failure. -/
theorem c1_transactional_rollback (s : Store)
    (mapping : List (String × String)) (pre : List SnapFile) (bad : SnapFile)
    (post : List SnapFile) (hgood : ∀ f ∈ pre, f.content ≠ none)
    (hbad : bad.content = none)
    (hnodup : ((pre ++ [bad]).map
      (fun f => tableNameFor mapping f.name)).Nodup) :
    (batchImportDirectory s (pre ++ bad :: post) mapping true).1 = s
    ∧ dictLookup (batchImportDirectory s (pre ++ bad :: post) mapping true).2
        (tableNameFor mapping bad.name) = some ⟨bad.name, 0, false⟩
    ∧ (∀ f ∈ pre,
        dictLookup (batchImportDirectory s (pre ++ bad :: post) mapping true).2
          (tableNameFor mapping f.name)
          = some ⟨f.name, (f.content.getD []).length, true⟩)
    ∧ (batchImportDirectory s (pre ++ bad :: post) mapping true).2.length
        = pre.length + 1 := by
  have hspec := batchGo_fail_spec mapping s pre bad post s [] hgood hbad
  rw [batchImportDirectory] at *
  rw [hspec]
  have hmapnames : (pre.map (fun f => (tableNameFor mapping f.name,
      (⟨f.name, (f.content.getD []).length, true⟩ : ImpResult)))).map
        (fun p => p.1)
      = pre.map (fun f => tableNameFor mapping f.name) := by
    rw [List.map_map]
    rfl
  rw [List.map_append] at hnodup
  rw [List.nodup_append] at hnodup
  obtain ⟨hpreNodup, _, hdisj⟩ := hnodup
  refine ⟨rfl, ?_, ?_, by simp⟩
  · simp only [List.nil_append]
    rw [dictLookup_append_single]
    rw [if_pos rfl]
  · intro f hf
    simp only [List.nil_append]
    rw [dictLookup_append_single]
    have hne : tableNameFor mapping bad.name ≠ tableNameFor mapping f.name := by
      intro he
      exact hdisj (List.mem_map_of_mem _ hf) (by simp [← he])
    rw [if_neg hne]
    refine dictLookup_of_nodup _ ?_ _ _ (List.mem_map_of_mem _ hf)
    rw [hmapnames]
    exact hpreNodup

/-- C1 witness: a two-file transactional batch whose second file fails: the
store is unchanged, the failing table b is marked with an error, the table
ta imported before it is marked success with its 2 rows, and no further
entries exist. -/
theorem c1_witness :
    (batchImportDirectory exStore ([exSnapA] ++ exSnapB :: []) exMapping
      true).1 = exStore
    ∧ dictLookup (batchImportDirectory exStore ([exSnapA] ++ exSnapB :: [])
        exMapping true).2 (tableNameFor exMapping exSnapB.name)
        = some ⟨exSnapB.name, 0, false⟩
    ∧ dictLookup (batchImportDirectory exStore ([exSnapA] ++ exSnapB :: [])
        exMapping true).2 (tableNameFor exMapping exSnapA.name)
        = some ⟨exSnapA.name, 2, true⟩ := by
  have h := c1_transactional_rollback exStore exMapping [exSnapA] exSnapB []
    (by decide) (by decide) (by decide)
  exact ⟨h.1, h.2.1, h.2.2.1 exSnapA (List.mem_singleton.mpr rfl)⟩

/-! ## Lemmas: population-weighted rollup -/

theorem joinCountry_fields (cs : List CleanCountryRow) (m : MeasureRow) :
    ∀ g ∈ joinCountry cs m,
    g.country_code = m.country_code ∧ g.year = m.year ∧ g.record = m.record
    ∧ g.value = m.value := by
  intro g hg
  simp only [joinCountry] at hg
  split at hg
  · rw [List.mem_singleton] at hg
    subst hg
    exact ⟨rfl, rfl, rfl, rfl⟩
  · obtain ⟨c, _, rfl⟩ := List.mem_map.mp hg
    exact ⟨rfl, rfl, rfl, rfl⟩

theorem joinCountry_self (cs : List CleanCountryRow) (m : MeasureRow) :
    ∃ g ∈ joinCountry cs m, g.country_code = m.country_code ∧ g.year = m.year
      ∧ g.record = m.record ∧ g.value = m.value := by
  simp only [joinCountry]
  split
  · exact ⟨_, List.mem_singleton.mpr rfl, rfl, rfl, rfl, rfl⟩
  · rename_i h
    rw [List.isEmpty_iff] at h
    obtain ⟨c, hc⟩ := List.exists_mem_of_ne_nil _ h
    exact ⟨_, List.mem_map_of_mem _ hc, rfl, rfl, rfl, rfl⟩

theorem mem_makeGeoData_of (ms : List MeasureRow) (cs : List CleanCountryRow)
    (m : MeasureRow) (hm : m ∈ ms) (hcommon : m.record ∈ commonRecords) :
    ∃ g ∈ makeGeoData ms cs, g.country_code = m.country_code ∧ g.year = m.year
      ∧ g.record = m.record ∧ g.value = m.value := by
  obtain ⟨g, hg, h1, h2, h3, h4⟩ := joinCountry_self cs m
  refine ⟨g, ?_, h1, h2, h3, h4⟩
  rw [makeGeoData, List.mem_filter]
  exact ⟨List.mem_flatMap.mpr ⟨m, hm, hg⟩, by simp [h3, hcommon]⟩

theorem makeGeoData_src (ms : List MeasureRow) (cs : List CleanCountryRow)
    (g : GeoRow) (hg : g ∈ makeGeoData ms cs) :
    g.record ∈ commonRecords ∧ ∃ m ∈ ms, g.country_code = m.country_code
      ∧ g.year = m.year ∧ g.record = m.record ∧ g.value = m.value := by
  rw [makeGeoData, List.mem_filter] at hg
  obtain ⟨hmem, hrec⟩ := hg
  obtain ⟨m, hm, hgj⟩ := List.mem_flatMap.mp hmem
  obtain ⟨h1, h2, h3, h4⟩ := joinCountry_fields cs m g hgj
  exact ⟨by simpa using hrec, m, hm, h1, h2, h3, h4⟩

/-- C8 (amended): the weighted-metrics join contains a row for a fact row
exactly when the fact row belongs to one of the three non-Population
canonical record families (BiocapPerCap, EFConsPerCap, GDP - other families
are filtered out before the join) and a Population row exists for its
(country_code, year); weighted_value is value times population; every rollup
row's population_weighted_avg is the group sum of value times population
divided by the group sum of population; with no Population row at all the
rollup is empty and agg_population_weighted is not published; and the spec's
example (pop 10 and 20, values 5 and 8, one region) yields exactly the
average 7. -/
theorem c8_population_weighted_rollup (ms : List MeasureRow)
    (cs : List CleanCountryRow) :
    (∀ m ∈ ms,
      ((m.record = "BiocapPerCap" ∨ m.record = "EFConsPerCap"
          ∨ m.record = "GDP")
        ∧ ∃ mp ∈ ms, mp.record = "Population"
            ∧ mp.country_code = m.country_code ∧ mp.year = m.year)
      ↔ ∃ w ∈ weightedMetrics ms cs, w.country_code = m.country_code
          ∧ w.year = m.year ∧ w.record = m.record)
    ∧ (∀ w ∈ weightedMetrics ms cs,
        w.weighted_value = w.value.mul w.population)
    ∧ (∀ a ∈ weightedAggs ms cs,
        a.population_weighted_avg
          = (pvSum ((weightedGroup (weightedMetrics ms cs) a.region a.year
              a.record).map (fun w => w.weighted_value))).div
            (pvSum ((weightedGroup (weightedMetrics ms cs) a.region a.year
              a.record).map (fun w => w.population))))
    ∧ ((∀ m ∈ ms, m.record ≠ "Population") →
        weightedAggs ms cs = []
        ∧ "agg_population_weighted" ∉ publishedAggNames ms cs)
    ∧ weightedAggs [exPopA, exPopB, exValA, exValB] [exCtryA, exCtryB]
        = [⟨"R1", 2020, "EFConsPerCap", PVal.num 210, PVal.num 30,
            PVal.num 7⟩] := by
  refine ⟨?_, ?_, ?_, ?_, ?_⟩
  · intro m hm
    constructor
    · rintro ⟨hrec3, mp, hmp, hprec, hpcc, hpyr⟩
      have hcommon : m.record ∈ commonRecords := by
        rcases hrec3 with h | h | h <;> simp [commonRecords, h]
      have hnotpop : m.record ≠ "Population" := by
        rcases hrec3 with h | h | h <;> rw [h] <;> decide
      obtain ⟨g, hg, hgcc, hgyr, hgrec, hgval⟩ :=
        mem_makeGeoData_of ms cs m hm hcommon
      obtain ⟨gp, hgp, hpgcc, hpgyr, hpgrec, hpgval⟩ :=
        mem_makeGeoData_of ms cs mp hmp (by simp [commonRecords, hprec])
      simp only [weightedMetrics]
      refine ⟨⟨g.country_code, g.year, g.record, g.region, g.value,
        gp.value, g.value.mul gp.value⟩, ?_, ?_⟩
      · rw [List.mem_flatMap]
        refine ⟨g, List.mem_filter.mpr ⟨hg, by
          simp only [decide_eq_true_eq]
          rw [hgrec]
          exact hnotpop⟩, ?_⟩
        refine List.mem_map.mpr
          ⟨(gp.country_code, gp.year, gp.value), ?_, rfl⟩
        rw [List.mem_filter]
        constructor
        · exact List.mem_map.mpr
            ⟨gp, List.mem_filter.mpr ⟨hgp, by simp [hpgrec, hprec]⟩, rfl⟩
        · simp only [Bool.and_eq_true, decide_eq_true_eq]
          constructor
          · rw [hpgcc, hpcc, hgcc]
          · rw [hpgyr, hpyr, hgyr]
      · exact ⟨hgcc, hgyr, hgrec⟩
    · rintro ⟨w, hw, hwcc, hwyr, hwrec⟩
      simp only [weightedMetrics] at hw
      obtain ⟨g, hgf, hw2⟩ := List.mem_flatMap.mp hw
      obtain ⟨hg, hgne⟩ := List.mem_filter.mp hgf
      obtain ⟨p, hpf, rfl⟩ := List.mem_map.mp hw2
      obtain ⟨hpl, hpkey⟩ := List.mem_filter.mp hpf
      obtain ⟨gp, hgpf, rfl⟩ := List.mem_map.mp hpl
      obtain ⟨hgp, hgprec⟩ := List.mem_filter.mp hgpf
      obtain ⟨hgcommon, m2, hm2, hm2cc, hm2yr, hm2rec, _⟩ :=
        makeGeoData_src ms cs g hg
      obtain ⟨_, mp, hmp, hmpcc, hmpyr, hmprec, _⟩ :=
        makeGeoData_src ms cs gp hgp
      simp only [decide_eq_true_eq] at hgne hgprec
      simp only [Bool.and_eq_true, decide_eq_true_eq] at hpkey
      constructor
      · have hwrec2 : g.record = m.record := hwrec
        rw [hwrec2] at hgcommon hgne
        simp only [commonRecords, List.mem_cons, List.not_mem_nil,
          or_false] at hgcommon
        rcases hgcommon with h | h | h | h
        · exact Or.inl h
        · exact Or.inr (Or.inl h)
        · exact absurd h hgne
        · exact Or.inr (Or.inr h)
      · refine ⟨mp, hmp, by rw [← hmprec, hgprec], ?_, ?_⟩
        · rw [← hmpcc, hpkey.1]
          exact hwcc
        · rw [← hmpyr, hpkey.2]
          exact hwyr
  · intro w hw
    simp only [weightedMetrics] at hw
    obtain ⟨g, _, hw2⟩ := List.mem_flatMap.mp hw
    obtain ⟨p, _, rfl⟩ := List.mem_map.mp hw2
    rfl
  · intro a ha
    rw [weightedAggs] at ha
    split at ha
    · exact absurd ha (List.not_mem_nil a)
    · split at ha
      · exact absurd ha (List.not_mem_nil a)
      · simp only [weightedRegionAgg] at ha
        obtain ⟨k, _, rfl⟩ := List.mem_map.mp ha
        rfl
  · intro hnopop
    have hfilnil : (makeGeoData ms cs).filter
        (fun g => decide (g.record = "Population")) = [] := by
      rw [List.filter_eq_nil_iff]
      intro g hg
      obtain ⟨_, m, hm, _, _, hrec, _⟩ := makeGeoData_src ms cs g hg
      simp only [decide_eq_true_eq]
      rw [hrec]
      exact hnopop m hm
    have hwa : weightedAggs ms cs = [] := by
      rw [weightedAggs]
      split
      · rfl
      · rw [if_pos (by simp [hfilnil])]
    refine ⟨hwa, ?_⟩
    rw [publishedAggNames]
    split
    · simp
    · rw [hwa]
      decide
  · simp [weightedAggs, makeGeoData, joinCountry, weightedMetrics,
      weightedRegionAgg, weightedGroup, dedupBy, dedupByGo, pvSum, PVal.mul,
      PVal.add, PVal.div, PVal.isNA, commonRecords, exPopA, exPopB, exValA,
      exValB, exCtryA, exCtryB]
    norm_num

/-- C8 counterexample to the claim as stated: an AreaPerCap fact row is not a
Population row and has a matching Population value for its (country, year),
yet the weighted join (and hence the rollup) is empty, because only the four
canonical record families survive the pre-join filter. -/
theorem c8_counterexample :
    exAreaA.record ≠ "Population"
    ∧ (∃ mp ∈ [exPopA, exAreaA], mp.record = "Population"
        ∧ mp.country_code = exAreaA.country_code ∧ mp.year = exAreaA.year)
    ∧ weightedMetrics [exPopA, exAreaA] [exCtryA] = []
    ∧ weightedAggs [exPopA, exAreaA] [exCtryA] = [] := by
  refine ⟨by decide, ⟨exPopA, List.mem_cons_self _ _, rfl, rfl, rfl⟩, ?_, ?_⟩
  · simp [weightedMetrics, makeGeoData, joinCountry, commonRecords, exPopA,
      exAreaA, exCtryA]
  · simp [weightedAggs, weightedMetrics, weightedRegionAgg, makeGeoData,
      joinCountry, commonRecords, dedupBy, dedupByGo, exPopA, exAreaA,
      exCtryA]

/-- C8 witness: the amended theorem applied to an input with no Population
row: the weighted rollup is empty and is not among the published snapshot
names. -/
theorem c8_witness :
    weightedAggs [exValA, exValB] [exCtryA, exCtryB] = []
    ∧ "agg_population_weighted"
        ∉ publishedAggNames [exValA, exValB] [exCtryA, exCtryB] :=
  (c8_population_weighted_rollup [exValA, exValB]
    [exCtryA, exCtryB]).2.2.2.1 (by decide)
